import Mathlib

/-
Verification of the element-data storage layer of the stellargraph repository
(src/stellargraph/core/element_data.py) against its specification.

The Python code is shallowly embedded: numpy arrays become Lean lists, array
indexing (including negative-index wrap-around) becomes npGet, numpy sort and
argsort become an insertion sort by key, pandas index machinery becomes plain
list search, and raised exceptions become Except values.
-/

/-! ## Definitions: the shallow embedding of element_data.py -/

/-- Numpy scalar indexing into a one-dimensional array: a non-negative index
selects from the front, a negative index wraps from the back, anything out of
range is an IndexError (modelled as none). -/
def npGet {α : Type} (l : List α) (i : Int) : Option α :=
  if 0 ≤ i then l[i.toNat]?
  else if (-i).toNat ≤ l.length then l[(l.length - (-i).toNat)]? else none

/-- Number of bits of numpy min_scalar_type for an unsigned value n
(the smallest unsigned integer dtype that can hold n). -/
def minScalarBits (n : Nat) : Nat :=
  if n ≤ 255 then 8 else if n ≤ 65535 then 16 else if n ≤ 4294967295 then 32 else 64

/-- Value obtained by casting -1 into the dtype chosen for n: the largest value
representable in that dtype. -/
def sentinelOf (n : Nat) : Nat := 2 ^ minScalarBits n - 1

/-- Insertion of index i into a list that is sorted by the key function k. -/
def insertByKey (k : Nat → Nat) (i : Nat) : List Nat → List Nat
  | [] => [i]
  | j :: l => if k i ≤ k j then i :: j :: l else j :: insertByKey k i l

/-- Insertion sort of a list of naturals by the key function k; the model of
numpy sorting (the claims proved below are invariant under tie order). -/
def sortByKey (k : Nat → Nat) : List Nat → List Nat
  | [] => []
  | i :: l => insertByKey k i (sortByKey k l)

/-- Model of np.argsort: the positions of l listed in ascending order of value. -/
def argsort (l : List Nat) : List Nat :=
  sortByKey (fun i => l.getD i 0) (List.range l.length)

/-- Model of ndarray.sort / np.sort for a one-dimensional array of naturals. -/
def npSort (l : List Nat) : List Nat := sortByKey (fun x => x) l

/-- Model of np.unique: the distinct values, in ascending order. -/
def npUnique (l : List Nat) : List Nat := (npSort l).dedup

/-- Occurrences that pandas Index.duplicated marks: every occurrence of a value
after its first one, given the identifiers already seen. -/
def duplicatedAux {α : Type} [DecidableEq α] (seen : List α) : List α → List α
  | [] => []
  | x :: xs =>
    if x ∈ seen then x :: duplicatedAux (x :: seen) xs
    else duplicatedAux (x :: seen) xs

/-- Model of pandas unique: keep the first occurrence of each value. -/
def uniqueFirstAux {α : Type} [DecidableEq α] (seen : List α) : List α → List α
  | [] => []
  | x :: xs =>
    if x ∈ seen then uniqueFirstAux seen xs
    else x :: uniqueFirstAux (x :: seen) xs

/-- Values reported by the duplicate-identifier error:
index[index.duplicated()].unique(). -/
def dupReport {α : Type} [DecidableEq α] (ids : List α) : List α :=
  uniqueFirstAux [] (duplicatedAux [] ids)

/-- An ExternalIdIndex maps between external IDs and integer locations. -/
structure ExternalIdIndex (α : Type) where
  index : List α
deriving DecidableEq

/-- Construction of an ExternalIdIndex: fails when the identifiers are not
unique, reporting the duplicated values. -/
def ExternalIdIndex.build {α : Type} [DecidableEq α] (ids : List α) :
    Except (List α) (ExternalIdIndex α) :=
  if ids.Nodup then .ok ⟨ids⟩ else .error (dupReport ids)

/-- Model of pandas Index.get_indexer for one identifier: its position, or -1
when it is unknown. -/
def getIndexer {α : Type} [DecidableEq α] (idx : List α) (id : α) : Int :=
  if id ∈ idx then (idx.indexOf id : Int) else -1

/-- Element-wise validity of ilocs: inside the half-open range [0, count). -/
def ExternalIdIndex.isValid {α : Type} (idx : ExternalIdIndex α) (iloc : Int) : Bool :=
  decide (0 ≤ iloc) && decide (iloc < (idx.index.length : Int))

/-- Error raised by require_valid: the single missing value when exactly one
query entry is unmatched, otherwise the list of unmatched entries. -/
inductive IdxError (α : Type) where
  | single (a : α)
  | multiple (l : List α)
deriving DecidableEq

/-- Model of ExternalIdIndex.require_valid: collect the query entries whose
iloc is invalid, and fail when there are any. -/
def ExternalIdIndex.requireValid {α : Type} (idx : ExternalIdIndex α)
    (queryIds : List α) (ilocs : List Int) : Except (IdxError α) Unit :=
  match (queryIds.zip ilocs).filterMap
      (fun p => if idx.isValid p.2 then none else some p.1) with
  | [] => .ok ()
  | [v] => .error (.single v)
  | vs => .error (.multiple vs)

/-- Value of casting an iloc into the dtype chosen for the index length:
reduction modulo the dtype width, sending -1 to the largest representable
value. -/
def castToDtype (len : Nat) (i : Int) : Int :=
  i % ((2 ^ minScalarBits len : Nat) : Int)

/-- Model of ExternalIdIndex.to_iloc. -/
def ExternalIdIndex.toIloc {α : Type} [DecidableEq α] (idx : ExternalIdIndex α)
    (ids : List α) (smallerType : Bool) (strict : Bool) :
    Except (IdxError α) (List Int) :=
  let internalIds := ids.map (getIndexer idx.index)
  match (if strict then idx.requireValid ids internalIds else .ok ()) with
  | .error e => .error e
  | .ok _ =>
    if smallerType then .ok (internalIds.map (castToDtype idx.index.length))
    else .ok internalIds

/-- Model of ExternalIdIndex.from_iloc for a single iloc (numpy indexing into
the identifier array). -/
def ExternalIdIndex.fromIloc {α : Type} (idx : ExternalIdIndex α) (iloc : Int) :
    Option α :=
  npGet idx.index iloc

/-- Stops of consecutive type ranges: the start of the next type, and the
total element count for the last type. -/
def typeStops {τ : Type} (typeStarts : List (τ × Nat)) (numIds : Nat) : List Nat :=
  (typeStarts.drop 1).map (fun p => p.2) ++ [numIds]

/-- Validation loop of ElementData.__init__ over consecutive
((type name, start), stop) pairs: the first type must start at iloc 0 and no
start may exceed its computed stop. -/
def checkTypeRanges {τ : Type} (idx : Nat) :
    List ((τ × Nat) × Nat) → Except String (List (τ × Nat × Nat))
  | [] => .ok []
  | ((typeName, start), stop) :: rest =>
    if idx = 0 ∧ start ≠ 0 then
      .error "expected first type to start at index 0"
    else if start > stop then
      .error "expected valid type range, found start after stop"
    else
      match checkTypeRanges (idx + 1) rest with
      | .error e => .error e
      | .ok r => .ok ((typeName, start, stop) :: r)

/-- An ElementData stores shared information about a set of graph elements:
the identifier index, the type-name index, the cached per-element type-code
column and the per-type iloc ranges. -/
structure ElementData (ι τ : Type) where
  idIndex : ExternalIdIndex ι
  typeIndex : ExternalIdIndex τ
  typeColumn : List Nat
  typeElementIlocs : List (τ × Nat × Nat)
deriving DecidableEq

/-- Model of ElementData.__init__: validate the type ranges, build the two
indexes, and cache the type-code column (type ilocs repeated by type sizes). -/
def ElementData.build {ι τ : Type} [DecidableEq ι] [DecidableEq τ]
    (ids : List ι) (typeStarts : List (τ × Nat)) :
    Except String (ElementData ι τ) :=
  match checkTypeRanges 0 (typeStarts.zip (typeStops typeStarts ids.length)) with
  | .error e => .error e
  | .ok ranges =>
    match ExternalIdIndex.build ids with
    | .error _ => .error "expected IDs to appear once, found some that appeared more"
    | .ok idIndex =>
      let allTypes := typeStarts.map (fun p => p.1)
      let typeSizes := allTypes.map (fun t =>
        match ranges.lookup t with
        | some r => r.2 - r.1
        | none => 0)
      match ExternalIdIndex.build allTypes with
      | .error _ => .error "expected IDs to appear once, found some that appeared more"
      | .ok typeIndex =>
        let typeCodes := allTypes.map (fun t => (getIndexer allTypes t).toNat)
        .ok ⟨idIndex, typeIndex,
          List.flatten ((typeCodes.zip typeSizes).map (fun p => List.replicate p.2 p.1)),
          ranges⟩

/-- Model of ElementData.type_of_iloc for a single iloc: numpy-index the cached
type-code column (negative ilocs wrap around) and resolve the code through the
type index. -/
def ElementData.typeOfIloc {ι τ : Type} (ed : ElementData ι τ) (idIloc : Int) :
    Option τ :=
  match npGet ed.typeColumn idIloc with
  | none => none
  | some code => npGet ed.typeIndex.index ((code : Nat) : Int)

/-- Consecutive type ranges chaining from c up to nn. -/
def rangesFrom {τ : Type} (c : Nat) : List (τ × Nat × Nat) → Nat → Prop
  | [], nn => c = nn
  | r :: rest, nn => r.2.1 = c ∧ r.2.1 ≤ r.2.2 ∧ rangesFrom r.2.2 rest nn

/-- A NodeData extends ElementData with one 2-D feature matrix per type name,
modelled as a list of rows. -/
structure NodeData (ι τ φ : Type) extends ElementData ι τ where
  features : List (τ × List (List φ))

/-- Model of NodeData.features: translate the global ilocs to local row
indices by subtracting the start of the type range; any negative local index
is rejected as unknown IDs, and the IndexError raised by fancy-indexing past
the end of the matrix is caught and re-raised as the same unknown-IDs error. -/
def NodeData.featureSlice {ι τ φ : Type} [DecidableEq τ] (nd : NodeData ι τ φ)
    (typeName : τ) (idIlocs : List Int) : Except String (List (List φ)) :=
  match nd.typeElementIlocs.lookup typeName with
  | none => .error "KeyError"
  | some r =>
    let featureIlocs := idIlocs.map (fun i => i - (r.1 : Int))
    if featureIlocs.any (fun i => decide (i < 0)) then .error "unknown IDs"
    else
      match nd.features.lookup typeName with
      | none => .error "KeyError"
      | some mat =>
        match featureIlocs.mapM (fun i => npGet mat i) with
        | none => .error "unknown IDs"
        | some rows => .ok rows

/-- Stores an adjacency list in one contiguous array plus split offsets. -/
structure FlatAdjacencyList where
  flat : List Nat
  splits : List Nat
deriving DecidableEq

/-- Model of FlatAdjacencyList.__getitem__: negative node ilocs are refused;
the group of node iloc idx is the slice flat[splits[idx] : splits[idx + 1]],
and reading splits out of bounds is an IndexError. -/
def FlatAdjacencyList.get (a : FlatAdjacencyList) (idx : Int) :
    Except String (List Nat) :=
  if idx < 0 then .error "node ilocs must be non-negative."
  else
    match a.splits[idx.toNat]?, a.splits[idx.toNat + 1]? with
    | some start, some stop => .ok ((a.flat.drop start).take (stop - start))
    | _, _ => .error "IndexError"

/-- The slice of group n, used to reason about items() and degrees(). -/
def FlatAdjacencyList.group (a : FlatAdjacencyList) (n : Nat) : List Nat :=
  (a.flat.drop (a.splits.getD n 0)).take
    (a.splits.getD (n + 1) 0 - a.splits.getD n 0)

/-- Model of np.bincount with a minimum length. -/
def npBincount (minlength : Nat) (l : List Nat) : List Nat :=
  (List.range (max minlength (l.foldr (fun a m => max (a + 1) m) 0))).map
    (fun v => l.count v)

/-- Elementwise sum of the bincount arrays (all call sites pass arrays of
equal length). -/
def npSumVecs : List (List Nat) → List Nat
  | [] => []
  | c :: cs => cs.foldl (fun acc x => acc.zipWith (fun u v => u + v) x) c

/-- Model of _get_splits: per-node neighbour counts followed by a cumulative
sum into an offsets array starting at 0. -/
def getSplits (nodeIlocsList : List (List Nat)) (numberOfNodes : Nat) : List Nat :=
  List.scanl (fun u v => u + v) 0
    (npSumVecs (nodeIlocsList.map (npBincount numberOfNodes)))

/-- An EdgeData stores the source column, target column, node count and
node-type column needed by the adjacency constructions (the identifier and
weight columns are not consulted by any operation verified here). -/
structure EdgeData where
  sources : List Nat
  targets : List Nat
  numberOfNodes : Nat
  nodeTypeIlocs : List Nat
deriving DecidableEq

def EdgeData.numSelfLoops (ed : EdgeData) : Nat :=
  (ed.sources.zip ed.targets).countP (fun p => p.1 = p.2)

/-- Model of _combine_sources_and_targets: sources followed by targets, with
each target-side entry of a self-loop overwritten by the sentinel. -/
def EdgeData.combinedArr (ed : EdgeData) : List Nat :=
  ed.sources ++ (ed.sources.zip ed.targets).map
    (fun p => if p.1 = p.2 then sentinelOf ed.numberOfNodes else p.2)

/-- Argsort of the combined array with the trailing self-loop sentinel
positions dropped. -/
def EdgeData.trimmedFlat (ed : EdgeData) : List Nat :=
  (argsort ed.combinedArr).take
    ((argsort ed.combinedArr).length - ed.numSelfLoops)

/-- The sorted target-side entries with the trailing sentinels dropped. -/
def EdgeData.filteredTargets (ed : EdgeData) : List Nat :=
  (npSort (ed.combinedArr.drop ed.targets.length)).take
    ((npSort (ed.combinedArr.drop ed.targets.length)).length - ed.numSelfLoops)

/-- Model of _create_undirected_adj_lists. -/
def EdgeData.bothAdj (ed : EdgeData) : FlatAdjacencyList :=
  ⟨ed.trimmedFlat.map (fun p => p % ed.targets.length),
   getSplits [ed.sources, ed.filteredTargets] ed.numberOfNodes⟩

/-- Model of the helper inside _create_directed_adj_lists. -/
def toDirAdjList (arr : List Nat) (numberOfNodes : Nat) : FlatAdjacencyList :=
  ⟨argsort arr, getSplits [arr] numberOfNodes⟩

def EdgeData.inAdj (ed : EdgeData) : FlatAdjacencyList :=
  toDirAdjList ed.targets ed.numberOfNodes

def EdgeData.outAdj (ed : EdgeData) : FlatAdjacencyList :=
  toDirAdjList ed.sources ed.numberOfNodes

/-- Model of _adj_lookup. -/
def EdgeData.adjLookup (ed : EdgeData) (ins outs : Bool) :
    Except String FlatAdjacencyList :=
  if ins && outs then .ok ed.bothAdj
  else if ins then .ok ed.inAdj
  else if outs then .ok ed.outAdj
  else .error "expected at least one of ins or outs to be True, found neither"

/-- Model of degrees(): the length of every group of the chosen adjacency
view, keyed by node iloc. -/
def EdgeData.degrees (ed : EdgeData) (ins outs : Bool) :
    Except String (List Nat) :=
  match ed.adjLookup ins outs with
  | .error e => .error e
  | .ok adj =>
    .ok ((List.range (adj.splits.length - 1)).map (fun n => (adj.group n).length))

/-- Degree of one node iloc: the degrees mapping is a defaultdict, so absent
keys read as 0. -/
def EdgeData.degree (ed : EdgeData) (n : Nat) (ins outs : Bool) : Nat :=
  ((ed.degrees ins outs).toOption.getD []).getD n 0

def EdgeData.sourceTypes (ed : EdgeData) : List Nat :=
  ed.sources.map (fun s => ed.nodeTypeIlocs.getD s 0)

def EdgeData.targetTypes (ed : EdgeData) : List Nat :=
  ed.targets.map (fun s => ed.nodeTypeIlocs.getD s 0)

/-- Model of the helper inside _create_directed_adj_lists_by_other_node_type:
for every distinct other-endpoint type, the node column and the sorted edge
ilocs are both restricted to edges whose other endpoint has that type. -/
def toDirAdjListByType (arr otherNodeTypes : List Nat) (numberOfNodes : Nat) :
    List (Nat × FlatAdjacencyList) :=
  (npUnique otherNodeTypes).map (fun t =>
    (t, ⟨(argsort arr).filter (fun p => otherNodeTypes.getD p 0 = t),
         getSplits [(arr.zip otherNodeTypes).filterMap
           (fun p => if p.2 = t then some p.1 else none)] numberOfNodes⟩))

def EdgeData.inAdjByType (ed : EdgeData) : List (Nat × FlatAdjacencyList) :=
  toDirAdjListByType ed.targets ed.sourceTypes ed.numberOfNodes

def EdgeData.outAdjByType (ed : EdgeData) : List (Nat × FlatAdjacencyList) :=
  toDirAdjListByType ed.sources ed.targetTypes ed.numberOfNodes

/-- The argsort by which the target-side entries are reordered in
_create_undirected_adj_lists_by_other_node_type. -/
def EdgeData.filteredTargetsSortOrder (ed : EdgeData) : List Nat :=
  argsort (ed.combinedArr.drop ed.targets.length)

/-- Target-side entries reordered by the sort order, sentinels trimmed. -/
def EdgeData.filteredTargetsByType (ed : EdgeData) : List Nat :=
  (ed.filteredTargetsSortOrder.map
      (fun i => (ed.combinedArr.drop ed.targets.length).getD i 0)).take
    ((ed.filteredTargetsSortOrder.map
      (fun i => (ed.combinedArr.drop ed.targets.length).getD i 0)).length
        - ed.numSelfLoops)

/-- Source types reordered by the same sort order, trimmed alongside. -/
def EdgeData.filteredSourceTypes (ed : EdgeData) : List Nat :=
  (ed.filteredTargetsSortOrder.map (fun i => ed.sourceTypes.getD i 0)).take
    ((ed.filteredTargetsSortOrder.map (fun i => ed.sourceTypes.getD i 0)).length
      - ed.numSelfLoops)

/-- The type of the other endpoint for every retained position of the
combined array. -/
def EdgeData.bothOtherTypes (ed : EdgeData) : List Nat :=
  ed.trimmedFlat.map (fun p => (ed.targetTypes ++ ed.sourceTypes).getD p 0)

/-- Model of _create_undirected_adj_lists_by_other_node_type. -/
def EdgeData.bothAdjByType (ed : EdgeData) : List (Nat × FlatAdjacencyList) :=
  (npUnique ed.bothOtherTypes).map (fun t =>
    (t, ⟨((ed.trimmedFlat.map (fun p => p % ed.targets.length)).zip
            ed.bothOtherTypes).filterMap
          (fun p => if p.2 = t then some p.1 else none),
         getSplits
           [(ed.sources.zip ed.targetTypes).filterMap
              (fun p => if p.2 = t then some p.1 else none),
            (ed.filteredTargetsByType.zip ed.filteredSourceTypes).filterMap
              (fun p => if p.2 = t then some p.1 else none)]
           ed.numberOfNodes⟩))

/-- Model of _adj_lookup_by_other_node_type. -/
def EdgeData.adjLookupByType (ed : EdgeData) (ins outs : Bool) :
    Except String (List (Nat × FlatAdjacencyList)) :=
  if ins && outs then .ok ed.bothAdjByType
  else if ins then .ok ed.inAdjByType
  else if outs then .ok ed.outAdjByType
  else .error "expected at least one of ins or outs to be True, found neither"

/-- Model of edge_ilocs: with an other-node-type filter the per-type index is
consulted (an absent type falls back to a fresh defaultdict, which returns an
empty list for any node iloc, negative included); without a filter the plain
view is indexed. -/
def EdgeData.edgeIlocs (ed : EdgeData) (nodeIloc : Int) (ins outs : Bool)
    (otherNodeTypeIloc : Option Nat) : Except String (List Nat) :=
  match otherNodeTypeIloc with
  | some t =>
    match ed.adjLookupByType ins outs with
    | .error e => .error e
    | .ok index =>
      match index.lookup t with
      | some adj => adj.get nodeIloc
      | none => .ok []
  | none =>
    match ed.adjLookup ins outs with
    | .error e => .error e
    | .ok adj => adj.get nodeIloc

/-- Well-formedness of an edge collection: parallel source and target
columns, endpoint ilocs in range, the node-type column covering every node,
and a node count representable in the widest numpy unsigned dtype. -/
def EdgeData.WF (ed : EdgeData) : Prop :=
  ed.sources.length = ed.targets.length ∧
  (∀ x ∈ ed.sources, x < ed.numberOfNodes) ∧
  (∀ x ∈ ed.targets, x < ed.numberOfNodes) ∧
  ed.nodeTypeIlocs.length = ed.numberOfNodes ∧
  ed.numberOfNodes < 2 ^ 64

/-- The target half of the combined array: targets with self-loop entries
overwritten by the sentinel. -/
def EdgeData.maskedTargets (ed : EdgeData) : List Nat :=
  (ed.sources.zip ed.targets).map
    (fun p => if p.1 = p.2 then sentinelOf ed.numberOfNodes else p.2)

/-- The targets of the edges that are not self-loops, in edge order. -/
def EdgeData.nonLoopTargets (ed : EdgeData) : List Nat :=
  (ed.sources.zip ed.targets).filterMap
    (fun p => if p.1 = p.2 then none else some p.2)

/-! ## Theorems -/

theorem le_sentinelOf {n : Nat} (h : n < 2 ^ 64) : n ≤ sentinelOf n := by
  unfold sentinelOf minScalarBits
  split <;> [skip; split] <;> [omega; omega; skip]
  split <;> omega

theorem insertByKey_perm (k : Nat → Nat) (i : Nat) (l : List Nat) :
    (insertByKey k i l).Perm (i :: l) := by
  induction l with
  | nil => simp [insertByKey]
  | cons j t ih =>
    by_cases h : k i ≤ k j
    · simp [insertByKey, h]
    · simp only [insertByKey, h, if_false]
      exact (ih.cons j).trans (List.Perm.swap i j t)

theorem sortByKey_perm (k : Nat → Nat) (l : List Nat) : (sortByKey k l).Perm l := by
  induction l with
  | nil => simp [sortByKey]
  | cons i t ih => exact (insertByKey_perm k i (sortByKey k t)).trans (ih.cons i)

theorem insertByKey_pairwise (k : Nat → Nat) (i : Nat) {l : List Nat}
    (h : l.Pairwise (fun a b => k a ≤ k b)) :
    (insertByKey k i l).Pairwise (fun a b => k a ≤ k b) := by
  induction l with
  | nil => simp [insertByKey]
  | cons j t ih =>
    rcases List.pairwise_cons.mp h with ⟨hj, ht⟩
    by_cases hij : k i ≤ k j
    · simp only [insertByKey, hij, if_true]
      refine List.Pairwise.cons ?_ (List.Pairwise.cons hj ht)
      intro b hb
      rcases List.mem_cons.mp hb with rfl | hb3
      · exact hij
      · exact le_trans hij (hj b hb3)
    · simp only [insertByKey, hij, if_false]
      refine List.Pairwise.cons ?_ (ih ht)
      intro b hb
      have hb2 := (insertByKey_perm k i t).mem_iff.mp hb
      rcases List.mem_cons.mp hb2 with rfl | hb3
      · omega
      · exact hj b hb3

theorem sortByKey_pairwise (k : Nat → Nat) (l : List Nat) :
    (sortByKey k l).Pairwise (fun a b => k a ≤ k b) := by
  induction l with
  | nil => simp [sortByKey]
  | cons i t ih => exact insertByKey_pairwise k i ih

theorem sortByKey_length (k : Nat → Nat) (l : List Nat) :
    (sortByKey k l).length = l.length :=
  (sortByKey_perm k l).length_eq

theorem argsort_perm (l : List Nat) : (argsort l).Perm (List.range l.length) :=
  sortByKey_perm _ _

theorem argsort_length (l : List Nat) : (argsort l).length = l.length := by
  simpa using (argsort_perm l).length_eq

theorem argsort_pairwise (l : List Nat) :
    (argsort l).Pairwise (fun a b => l.getD a 0 ≤ l.getD b 0) :=
  sortByKey_pairwise _ _

theorem npUnique_nodup (l : List Nat) : (npUnique l).Nodup := List.nodup_dedup _

theorem npUnique_mem {l : List Nat} {a : Nat} : a ∈ npUnique l ↔ a ∈ l := by
  unfold npUnique
  rw [List.mem_dedup]
  exact (sortByKey_perm _ l).mem_iff

/-- Splitting a list sorted by key k at threshold n: the elements below the
threshold form a prefix. -/
theorem sorted_split (k : Nat → Nat) (n : Nat) :
    ∀ (l : List Nat), l.Pairwise (fun a b => k a ≤ k b) →
      l = l.filter (fun a => k a < n) ++ l.filter (fun a => n ≤ k a) := by
  intro l h
  induction l with
  | nil => simp
  | cons a t ih =>
    rcases List.pairwise_cons.mp h with ⟨ha, ht⟩
    by_cases hc : k a < n
    · have hn : ¬ (n ≤ k a) := by omega
      rw [List.filter_cons_of_pos (by simpa using hc),
        List.filter_cons_of_neg (by simpa using hn), List.cons_append]
      exact congrArg (a :: ·) (ih ht)
    · have hna : n ≤ k a := by omega
      have h1 : t.filter (fun b => decide (k b < n)) = [] := by
        rw [List.filter_eq_nil_iff]
        intro b hb
        have := ha b hb
        simp only [decide_eq_true_eq]
        omega
      have h2 : t.filter (fun b => decide (n ≤ k b)) = t := by
        rw [List.filter_eq_self]
        intro b hb
        have := ha b hb
        simp only [decide_eq_true_eq]
        omega
      rw [List.filter_cons_of_neg (by simpa using hc),
        List.filter_cons_of_pos (by simpa using hna), h1, h2, List.nil_append]

/-- Taking the length of the first part of a concatenation. -/
theorem take_of_append_eq {α : Type} (l P Q : List α) (h : l = P ++ Q) :
    l.take (l.length - Q.length) = P := by
  subst h
  rw [List.length_append, Nat.add_sub_cancel]
  exact List.take_left P Q

/-- Dropping the last k entries of a list sorted by key, when exactly the k
largest entries carry the maximal key value s, keeps exactly the entries with
key below s. -/
theorem take_sorted_eq_filter (k : Nat → Nat) (s : Nat) (l : List Nat)
    (hp : l.Pairwise (fun a b => k a ≤ k b))
    (hv : ∀ a ∈ l, k a < s ∨ k a = s) :
    l.take (l.length - l.countP (fun a => k a = s)) = l.filter (fun a => k a < s) := by
  have hQ : l.filter (fun a => s ≤ k a) = l.filter (fun a => k a = s) := by
    apply List.filter_congr
    intro x hx
    rcases hv x hx with h | h
    · have h1 : ¬ (s ≤ k x) := by omega
      have h2 : ¬ (k x = s) := by omega
      simp [h1, h2]
    · simp [h]
  have hsplit : l = l.filter (fun a => k a < s) ++ l.filter (fun a => k a = s) := by
    rw [← hQ]
    exact sorted_split k s l hp
  rw [List.countP_eq_length_filter]
  exact take_of_append_eq l _ _ hsplit

/-- Reading a list through the positions of its index range recovers the list;
stated for countP. -/
theorem countP_range_getD (l : List Nat) (p : Nat → Bool) :
    (List.range l.length).countP (fun i => p (l.getD i 0)) = l.countP p := by
  induction l with
  | nil => simp
  | cons a t ih =>
    have h0 : (List.range (a :: t).length) = 0 :: (List.range t.length).map Nat.succ := by
      rw [List.length_cons]
      exact List.range_succ_eq_map t.length
    rw [h0, List.countP_cons, List.countP_map, List.countP_cons]
    simp only [List.getD_cons_zero]
    have he : (List.range t.length).countP ((fun i => p ((a :: t).getD i 0)) ∘ Nat.succ) =
        (List.range t.length).countP (fun i => p (t.getD i 0)) := by
      apply List.countP_congr
      intro x _
      simp [Function.comp]
    rw [he, ih]

/-- Filtering through an if-then-some-else-none filterMap is a filter followed
by a map; this is the shape of every boolean-mask selection in the code. -/
theorem filterMap_if {α β : Type} (c : α → Bool) (g : α → β) (l : List α) :
    l.filterMap (fun x => if c x then some (g x) else none) =
      (l.filter c).map g := by
  induction l with
  | nil => simp
  | cons a t ih =>
    by_cases h : c a <;> simp [List.filterMap_cons, h, ih]

/-- Count of a value in the range list. -/
theorem count_range_eq (a n : Nat) :
    (List.range n).count a = if a < n then 1 else 0 := by
  by_cases h : a < n
  · rw [if_pos h]
    exact List.count_eq_one_of_mem (List.nodup_range n) (List.mem_range.mpr h)
  · rw [if_neg h]
    exact List.count_eq_zero.mpr (by simpa using h)

/-- Sum of a pointwise-added map is the sum of the two maps. -/
theorem sum_map_add {α : Type} (f g : α → Nat) (l : List α) :
    (l.map (fun x => f x + g x)).sum = (l.map f).sum + (l.map g).sum := by
  induction l with
  | nil => simp
  | cons a t ih =>
    simp only [List.map_cons, List.sum_cons, ih]
    omega

/-- Counting below a successor threshold splits off the exact count. -/
theorem countP_lt_succ (l : List Nat) (m : Nat) :
    l.countP (fun x => x < m + 1) = l.countP (fun x => x < m) + l.count m := by
  induction l with
  | nil => simp
  | cons a t ih =>
    rw [List.countP_cons, List.countP_cons, List.count_cons, ih]
    simp only [beq_iff_eq, decide_eq_true_eq]
    split_ifs <;> omega

/-- Summing the per-value counts below n counts the elements below n. -/
theorem sum_range_count (l : List Nat) (n : Nat) :
    ((List.range n).map (fun v => l.count v)).sum = l.countP (fun x => x < n) := by
  induction n with
  | zero =>
    simp only [List.range_zero, List.map_nil, List.sum_nil]
    symm
    rw [List.countP_eq_zero]
    intro a _
    simp
  | succ m ih =>
    rw [List.range_succ, List.map_append, List.sum_append, ih, countP_lt_succ]
    simp

/-- countP is monotone in the threshold of a less-than predicate. -/
theorem countP_lt_mono (l : List Nat) {m n : Nat} (h : m ≤ n) :
    l.countP (fun x => x < m) ≤ l.countP (fun x => x < n) := by
  apply List.countP_mono_left
  intro a _
  simp only [decide_eq_true_eq]
  omega

/-- countP of a bounded list with the full less-than predicate is its length. -/
theorem countP_lt_eq_length {l : List Nat} {n : Nat} (h : ∀ x ∈ l, x < n) :
    l.countP (fun x => x < n) = l.length := by
  rw [List.countP_eq_length]
  intro a ha
  simpa using h a ha

theorem getIndexer_mem {α : Type} [DecidableEq α] {idx : List α} {q : α}
    (hq : q ∈ idx) : getIndexer idx q = (idx.indexOf q : Int) := by
  simp [getIndexer, hq]

theorem getIndexer_not_mem {α : Type} [DecidableEq α] {idx : List α} {q : α}
    (hq : q ∉ idx) : getIndexer idx q = -1 := by
  simp [getIndexer, hq]

theorem isValid_getIndexer_mem {α : Type} [DecidableEq α]
    (idx : ExternalIdIndex α) (q : α) (hq : q ∈ idx.index) :
    idx.isValid (getIndexer idx.index q) = true := by
  rw [getIndexer_mem hq]
  have h1 : idx.index.indexOf q < idx.index.length := List.indexOf_lt_length.mpr hq
  simp only [ExternalIdIndex.isValid, Bool.and_eq_true, decide_eq_true_eq]
  constructor
  · exact Int.ofNat_nonneg _
  · exact_mod_cast h1

theorem isValid_getIndexer_not_mem {α : Type} [DecidableEq α]
    (idx : ExternalIdIndex α) (q : α) (hq : q ∉ idx.index) :
    idx.isValid (getIndexer idx.index q) = false := by
  rw [getIndexer_not_mem hq]
  simp [ExternalIdIndex.isValid]

/-- Unmatched query entries computed by require_valid are exactly the query
entries that are not in the index. -/
theorem missing_eq_filter {α : Type} [DecidableEq α]
    (idx : ExternalIdIndex α) (query : List α) :
    (query.zip (query.map (getIndexer idx.index))).filterMap
        (fun p => if idx.isValid p.2 then none else some p.1)
      = query.filter (fun q => decide (¬ (q ∈ idx.index))) := by
  induction query with
  | nil => rfl
  | cons q t ih =>
    rw [List.map_cons, List.zip_cons_cons, List.filterMap_cons, List.filter_cons]
    by_cases hq : q ∈ idx.index
    · rw [isValid_getIndexer_mem idx q hq] at *
      simp [hq, isValid_getIndexer_mem idx q hq, ih]
    · simp [hq, isValid_getIndexer_not_mem idx q hq, ih]

theorem castToDtype_of_lt {len p : Nat} (h : p < 2 ^ minScalarBits len) :
    castToDtype len (p : Int) = (p : Int) := by
  unfold castToDtype
  apply Int.emod_eq_of_lt
  · exact Int.ofNat_nonneg p
  · exact_mod_cast h

theorem castToDtype_neg_one (len : Nat) :
    castToDtype len (-1) = ((sentinelOf len : Nat) : Int) := by
  unfold castToDtype sentinelOf
  have hb : (0 : Int) < ((2 ^ minScalarBits len : Nat) : Int) := by
    exact_mod_cast Nat.pos_pow_of_pos _ (by norm_num)
  set b := ((2 ^ minScalarBits len : Nat) : Int) with hbdef
  have h1 : (-1 : Int) = (b - 1) + b * (-1) := by ring
  rw [h1, Int.add_mul_emod_self_left]
  have h2 : (b - 1) % b = b - 1 := by
    apply Int.emod_eq_of_lt <;> omega
  rw [h2]
  have h3 : 1 ≤ 2 ^ minScalarBits len := Nat.one_le_pow _ _ (by norm_num)
  rw [hbdef]
  push_cast [h3]
  ring

theorem uniqueFirstAux_mem {α : Type} [DecidableEq α] (v : α) :
    ∀ (l seen : List α), v ∈ uniqueFirstAux seen l ↔ (v ∈ l ∧ v ∉ seen) := by
  intro l
  induction l with
  | nil => simp [uniqueFirstAux]
  | cons x xs ih =>
    intro seen
    by_cases hx : x ∈ seen
    · rw [uniqueFirstAux, if_pos hx, ih seen]
      constructor
      · rintro ⟨h1, h2⟩
        exact ⟨List.mem_cons_of_mem x h1, h2⟩
      · rintro ⟨h1, h2⟩
        rcases List.mem_cons.mp h1 with rfl | h3
        · exact absurd hx h2
        · exact ⟨h3, h2⟩
    · rw [uniqueFirstAux, if_neg hx]
      by_cases hvx : v = x
      · subst hvx
        simp [hx]
      · constructor
        · intro h1
          rcases List.mem_cons.mp h1 with h2 | h2
          · exact absurd h2 hvx
          · rcases (ih (x :: seen)).mp h2 with ⟨h3, h4⟩
            refine ⟨List.mem_cons_of_mem x h3, fun hc => h4 (List.mem_cons_of_mem x hc)⟩
        · rintro ⟨h1, h2⟩
          rcases List.mem_cons.mp h1 with rfl | h3
          · exact absurd rfl hvx
          · apply List.mem_cons_of_mem
            rw [ih (x :: seen)]
            refine ⟨h3, fun hc => ?_⟩
            rcases List.mem_cons.mp hc with rfl | h4
            · exact hvx rfl
            · exact h2 h4

theorem uniqueFirstAux_nodup {α : Type} [DecidableEq α] :
    ∀ (l seen : List α), (uniqueFirstAux seen l).Nodup := by
  intro l
  induction l with
  | nil => intro seen ; simp [uniqueFirstAux]
  | cons x xs ih =>
    intro seen
    by_cases hx : x ∈ seen
    · rw [uniqueFirstAux, if_pos hx]
      exact ih seen
    · rw [uniqueFirstAux, if_neg hx]
      refine List.Nodup.cons ?_ (ih (x :: seen))
      intro hc
      exact ((uniqueFirstAux_mem x xs (x :: seen)).mp hc).2 (List.mem_cons_self x seen)

theorem duplicatedAux_mem {α : Type} [DecidableEq α] (v : α) :
    ∀ (l seen : List α),
      v ∈ duplicatedAux seen l ↔ ((v ∈ seen ∧ v ∈ l) ∨ 2 ≤ l.count v) := by
  intro l
  induction l with
  | nil => simp [duplicatedAux]
  | cons x xs ih =>
    intro seen
    by_cases hvx : v = x
    · subst hvx
      by_cases hx : v ∈ seen
      · rw [duplicatedAux, if_pos hx]
        constructor
        · intro _
          exact Or.inl ⟨hx, List.mem_cons_self v xs⟩
        · intro _
          exact List.mem_cons_self v _
      · rw [duplicatedAux, if_neg hx, ih (v :: seen)]
        have hcc : (v :: xs).count v = xs.count v + 1 := by
          rw [List.count_cons]
          simp
        rw [hcc]
        constructor
        · rintro (⟨h1, h2⟩ | h2)
          · have h3 : 0 < xs.count v := List.count_pos_iff.mpr h2
            right
            omega
          · right
            omega
        · rintro (⟨h1, _⟩ | h2)
          · exact absurd h1 hx
          · left
            have h3 : 0 < xs.count v := by omega
            exact ⟨List.mem_cons_self v seen, List.count_pos_iff.mp h3⟩
    · have hcount : (x :: xs).count v = xs.count v := by
        rw [List.count_cons]
        have hxv : ¬ (x = v) := fun h => hvx h.symm
        simp [hxv]
      by_cases hx : x ∈ seen
      · rw [duplicatedAux, if_pos hx]
        have hne : v ≠ x := hvx
        rw [List.mem_cons]
        constructor
        · rintro (h1 | h1)
          · exact absurd h1 hne
          · rcases (ih (x :: seen)).mp h1 with ⟨h2, h3⟩ | h2
            · rcases List.mem_cons.mp h2 with rfl | h4
              · exact absurd rfl hne
              · exact Or.inl ⟨h4, List.mem_cons_of_mem x h3⟩
            · right
              omega
        · rintro (⟨h1, h2⟩ | h1)
          · right
            rw [ih (x :: seen)]
            rcases List.mem_cons.mp h2 with rfl | h3
            · exact absurd rfl hne
            · exact Or.inl ⟨List.mem_cons_of_mem x h1, h3⟩
          · right
            rw [ih (x :: seen)]
            right
            omega
      · rw [duplicatedAux, if_neg hx, ih (x :: seen)]
        constructor
        · rintro (⟨h1, h2⟩ | h1)
          · rcases List.mem_cons.mp h1 with rfl | h3
            · exact absurd rfl hvx
            · exact Or.inl ⟨h3, List.mem_cons_of_mem x h2⟩
          · right
            omega
        · rintro (⟨h1, h2⟩ | h1)
          · rcases List.mem_cons.mp h2 with rfl | h3
            · exact absurd rfl hvx
            · exact Or.inl ⟨List.mem_cons_of_mem x h1, h3⟩
          · right
            omega

theorem dupReport_mem {α : Type} [DecidableEq α] (ids : List α) (v : α) :
    v ∈ dupReport ids ↔ 2 ≤ ids.count v := by
  unfold dupReport
  rw [uniqueFirstAux_mem, duplicatedAux_mem]
  simp

theorem dupReport_nodup {α : Type} [DecidableEq α] (ids : List α) :
    (dupReport ids).Nodup :=
  uniqueFirstAux_nodup _ _

theorem requireValid_eq {α : Type} [DecidableEq α] (idx : ExternalIdIndex α)
    (query : List α) :
    idx.requireValid query (query.map (getIndexer idx.index)) =
      match query.filter (fun q => decide (¬ (q ∈ idx.index))) with
      | [] => .ok ()
      | [v] => .error (.single v)
      | vs => .error (.multiple vs) := by
  unfold ExternalIdIndex.requireValid
  rw [missing_eq_filter]

/-- C5: for every CompactIndex, from_iloc inverts to_iloc on every known
identifier; on an unknown identifier, to_iloc fails in strict mode, and in
non-strict mode returns the missing sentinel (the maximum value representable
in the chosen width when compacting, the invalid marker -1 otherwise), and
is_valid is false on both sentinels. -/
theorem toIloc_roundtrip_and_sentinel {α : Type} [DecidableEq α]
    (idx : ExternalIdIndex α) (hn : idx.index.length < 2 ^ 64) :
    (∀ id0 ∈ idx.index, ∀ smallerType strict : Bool,
      ∃ i : Int, idx.toIloc [id0] smallerType strict = .ok [i] ∧
        idx.fromIloc i = some id0) ∧
    (∀ id0 : α, id0 ∉ idx.index →
      (∀ smallerType : Bool, idx.toIloc [id0] smallerType true = .error (.single id0)) ∧
      idx.toIloc [id0] true false = .ok [((sentinelOf idx.index.length : Nat) : Int)] ∧
      idx.toIloc [id0] false false = .ok [(-1 : Int)] ∧
      idx.isValid ((sentinelOf idx.index.length : Nat) : Int) = false ∧
      idx.isValid (-1 : Int) = false) := by
  have hone : 1 ≤ 2 ^ minScalarBits idx.index.length := Nat.one_le_pow _ _ (by norm_num)
  have hsen := le_sentinelOf hn
  constructor
  · intro id0 hmem smallerType strict
    have hfil : [id0].filter (fun q => decide (¬ (q ∈ idx.index))) = [] := by
      simp [hmem]
    have hreq : idx.requireValid [id0] [((idx.index.indexOf id0 : Nat) : Int)] = .ok () := by
      have h0 := requireValid_eq idx [id0]
      rw [hfil, List.map_cons, List.map_nil, getIndexer_mem hmem] at h0
      exact h0
    have hp : idx.index.indexOf id0 < idx.index.length := List.indexOf_lt_length.mpr hmem
    have hplt : idx.index.indexOf id0 < 2 ^ minScalarBits idx.index.length := by
      unfold sentinelOf at hsen
      omega
    have hfrom : idx.fromIloc ((idx.index.indexOf id0 : Nat) : Int) = some id0 := by
      unfold ExternalIdIndex.fromIloc npGet
      rw [if_pos (Int.ofNat_nonneg _), Int.toNat_natCast,
        List.getElem?_eq_getElem hp, List.getElem_indexOf hp]
    refine ⟨((idx.index.indexOf id0 : Nat) : Int), ?_, hfrom⟩
    cases strict <;> cases smallerType <;>
      simp [ExternalIdIndex.toIloc, hreq, getIndexer_mem hmem, castToDtype_of_lt hplt]
  · intro id0 hmem
    have hfil : [id0].filter (fun q => decide (¬ (q ∈ idx.index))) = [id0] := by
      simp [hmem]
    have hreq : idx.requireValid [id0] [(-1 : Int)] = .error (.single id0) := by
      have h0 := requireValid_eq idx [id0]
      rw [hfil, List.map_cons, List.map_nil, getIndexer_not_mem hmem] at h0
      exact h0
    have hvs : idx.isValid ((sentinelOf idx.index.length : Nat) : Int) = false := by
      have h2 : ¬ (((sentinelOf idx.index.length : Nat) : Int) <
          (idx.index.length : Int)) := by
        omega
      simp [ExternalIdIndex.isValid, h2]
    have hvneg : idx.isValid (-1 : Int) = false := by
      simp [ExternalIdIndex.isValid]
    refine ⟨?_, ?_, ?_, hvs, hvneg⟩
    · intro smallerType
      cases smallerType <;>
        simp [ExternalIdIndex.toIloc, hreq, getIndexer_not_mem hmem]
    · simp [ExternalIdIndex.toIloc, hreq, getIndexer_not_mem hmem, castToDtype_neg_one]
    · simp [ExternalIdIndex.toIloc, hreq, getIndexer_not_mem hmem]

theorem toIloc_roundtrip_and_sentinel_witness :
    ((["a", "b"] : List String).length < 2 ^ 64) ∧
    (∃ i : Int, (ExternalIdIndex.mk ["a", "b"]).toIloc ["a"] true false = .ok [i] ∧
      (ExternalIdIndex.mk ["a", "b"]).fromIloc i = some "a") ∧
    ((ExternalIdIndex.mk ["a", "b"]).toIloc ["z"] false false = .ok [(-1 : Int)]) := by
  have h := toIloc_roundtrip_and_sentinel (ExternalIdIndex.mk ["a", "b"]) (by norm_num)
  refine ⟨by norm_num, h.1 "a" (by simp) true false, ((h.2 "z" (by simp)).2.2).1⟩

/-- C7: CompactIndex construction fails exactly on duplicated identifiers, and
the reported error lists exactly the set of duplicated values, each once. -/
theorem build_reports_duplicates {α : Type} [DecidableEq α] (ids : List α) :
    ((ExternalIdIndex.build ids).isOk ↔ ids.Nodup) ∧
    (∀ l, ExternalIdIndex.build ids = .error l →
      l.Nodup ∧ (∀ v, v ∈ l ↔ 2 ≤ ids.count v)) := by
  by_cases h : ids.Nodup
  · rw [ExternalIdIndex.build, if_pos h]
    refine ⟨by simp [Except.isOk, Except.toBool, h], ?_⟩
    intro l hl
    exact absurd hl (by simp)
  · rw [ExternalIdIndex.build, if_neg h]
    refine ⟨by simp [Except.isOk, Except.toBool, h], ?_⟩
    intro l hl
    have : l = dupReport ids := (Except.error.inj hl).symm
    subst this
    exact ⟨dupReport_nodup ids, fun v => dupReport_mem ids v⟩

theorem build_reports_duplicates_witness :
    (ExternalIdIndex.build ["x", "y", "x"] = .error ["x"]) ∧
    ((["x"] : List String).Nodup ∧
      (∀ v, v ∈ (["x"] : List String) ↔ 2 ≤ (["x", "y", "x"] : List String).count v)) := by
  refine ⟨by rfl, ?_⟩
  exact (build_reports_duplicates ["x", "y", "x"]).2 ["x"] (by rfl)

/-- C8: a strict to_iloc query with at least one unmatched entry fails,
reporting a single bare value when exactly one entry is unmatched and the full
list of unmatched entries otherwise; the reported values are exactly the query
entries absent from the index, so known identifiers are never reported. -/
theorem toIloc_strict_reports_unmatched {α : Type} [DecidableEq α]
    (idx : ExternalIdIndex α) (query : List α) (smallerType : Bool)
    (hm : query.filter (fun q => decide (¬ (q ∈ idx.index))) ≠ []) :
    idx.toIloc query smallerType true = .error
      (match query.filter (fun q => decide (¬ (q ∈ idx.index))) with
       | [v] => IdxError.single v
       | vs => IdxError.multiple vs) ∧
    (∀ v, v ∈ query.filter (fun q => decide (¬ (q ∈ idx.index))) ↔
      (v ∈ query ∧ v ∉ idx.index)) := by
  constructor
  · have hreq := requireValid_eq idx query
    rcases hq : query.filter (fun q => decide (¬ (q ∈ idx.index))) with _ | ⟨v, rest⟩
    · exact absurd hq hm
    · rw [hq] at hreq
      rcases rest with _ | ⟨w, rest2⟩ <;>
        cases smallerType <;> simp [ExternalIdIndex.toIloc, hreq]
  · intro v
    rw [List.mem_filter]
    simp

theorem toIloc_strict_reports_unmatched_witness :
    ((["z", "a"] : List String).filter
        (fun q => decide (¬ (q ∈ (["a"] : List String)))) ≠ []) ∧
    ((ExternalIdIndex.mk ["a"]).toIloc ["z", "a"] true true =
      .error (IdxError.single "z")) := by
  have h := toIloc_strict_reports_unmatched (ExternalIdIndex.mk ["a"]) ["z", "a"] true
    (by decide)
  refine ⟨by decide, ?_⟩
  have h2 := h.1
  simpa using h2

theorem rangesFrom_bounds {τ : Type} :
    ∀ (rs : List (τ × Nat × Nat)) (c nn : Nat), rangesFrom c rs nn →
      (c ≤ nn ∧ ∀ r ∈ rs, c ≤ r.2.1 ∧ r.2.1 ≤ r.2.2 ∧ r.2.2 ≤ nn) := by
  intro rs
  induction rs with
  | nil =>
    intro c nn h
    exact ⟨le_of_eq h, by simp⟩
  | cons r rest ih =>
    intro c nn h
    rcases h with ⟨hstart, hle, hrest⟩
    rcases ih r.2.2 nn hrest with ⟨h1, h2⟩
    refine ⟨by omega, ?_⟩
    intro x hx
    rcases List.mem_cons.mp hx with rfl | hx2
    · omega
    · rcases h2 x hx2 with ⟨h3, h4, h5⟩
      omega

theorem rangesFrom_countP_one {τ : Type} :
    ∀ (rs : List (τ × Nat × Nat)) (c nn : Nat), rangesFrom c rs nn →
      ∀ n, c ≤ n → n < nn →
        rs.countP (fun r => decide (r.2.1 ≤ n) && decide (n < r.2.2)) = 1 := by
  intro rs
  induction rs with
  | nil =>
    intro c nn h n h1 h2
    rw [rangesFrom] at h
    omega
  | cons r rest ih =>
    intro c nn h n h1 h2
    rcases h with ⟨hstart, hle, hrest⟩
    rw [List.countP_cons]
    by_cases hn : n < r.2.2
    · have hr1 : r.2.1 ≤ n := by omega
      have hhead : (decide (r.2.1 ≤ n) && decide (n < r.2.2)) = true := by
        simp [hr1, hn]
      rw [hhead]
      have hzero : rest.countP (fun x => decide (x.2.1 ≤ n) && decide (n < x.2.2)) = 0 := by
        rw [List.countP_eq_zero]
        intro x hx
        obtain ⟨hb1, hb2, hb3⟩ := (rangesFrom_bounds rest r.2.2 nn hrest).2 x hx
        simp only [Bool.and_eq_true, decide_eq_true_eq, not_and]
        intro hxs
        omega
      simp [hzero]
    · have hhead : (decide (r.2.1 ≤ n) && decide (n < r.2.2)) = false := by
        simp [hn]
      rw [hhead]
      have hone := ih r.2.2 nn hrest n (by omega) h2
      simp [hone]

theorem rangesFrom_sum_sizes {τ : Type} :
    ∀ (rs : List (τ × Nat × Nat)) (c nn : Nat), rangesFrom c rs nn →
      (rs.map (fun r => r.2.2 - r.2.1)).sum = nn - c := by
  intro rs
  induction rs with
  | nil =>
    intro c nn h
    rw [rangesFrom] at h
    simp [h]
  | cons r rest ih =>
    intro c nn h
    rcases h with ⟨hstart, hle, hrest⟩
    have h1 := ih r.2.2 nn hrest
    have h2 := (rangesFrom_bounds rest r.2.2 nn hrest).1
    simp only [List.map_cons, List.sum_cons, h1]
    omega

theorem except_isOk_iff {ε α : Type} (e : Except ε α) :
    e.isOk = true ↔ ∃ a, e = .ok a := by
  cases e with
  | error x =>
    simp [Except.isOk, Except.toBool]
  | ok a =>
    simp [Except.isOk, Except.toBool]

theorem externalIdIndex_build_ok {α : Type} [DecidableEq α] {ids : List α}
    {v : ExternalIdIndex α} (h : ExternalIdIndex.build ids = .ok v) :
    ids.Nodup ∧ v = ⟨ids⟩ := by
  by_cases hn : ids.Nodup
  · rw [ExternalIdIndex.build, if_pos hn] at h
    exact ⟨hn, (Except.ok.inj h).symm⟩
  · rw [ExternalIdIndex.build, if_neg hn] at h
    exact absurd h (by simp)

theorem checkTypeRanges_ok_shape {τ : Type} :
    ∀ (pairs : List ((τ × Nat) × Nat)) (idx : Nat) (rs : List (τ × Nat × Nat)),
      checkTypeRanges idx pairs = .ok rs →
      rs = pairs.map (fun p => (p.1.1, p.1.2, p.2)) ∧
      (∀ p ∈ pairs, p.1.2 ≤ p.2) ∧
      (idx = 0 → ∀ q ∈ pairs.head?, q.1.2 = 0) := by
  intro pairs
  induction pairs with
  | nil =>
    intro idx rs h
    rw [checkTypeRanges] at h
    have hrs : rs = [] := (Except.ok.inj h).symm
    subst hrs
    simp
  | cons p rest ih =>
    rcases p with ⟨⟨t, s⟩, st⟩
    intro idx rs h
    rw [checkTypeRanges] at h
    by_cases hc1 : idx = 0 ∧ s ≠ 0
    · rw [if_pos hc1] at h
      exact absurd h (by simp)
    · rw [if_neg hc1] at h
      by_cases hc2 : s > st
      · rw [if_pos hc2] at h
        exact absurd h (by simp)
      · rw [if_neg hc2] at h
        rcases hrec : checkTypeRanges (idx + 1) rest with e | r
        · rw [hrec] at h
          exact absurd h (by simp)
        · rw [hrec] at h
          have hr := ih (idx + 1) r hrec
          have hrs : rs = (t, s, st) :: r := (Except.ok.inj h).symm
          subst hrs
          refine ⟨?_, ?_, ?_⟩
          · rw [List.map_cons, hr.1]
          · intro q hq
            rcases List.mem_cons.mp hq with rfl | hq2
            · simpa using Nat.le_of_not_lt hc2
            · exact hr.2.1 q hq2
          · intro hidx q hq
            subst hidx
            simp only [List.head?_cons, Option.mem_def, Option.some.injEq] at hq
            subst hq
            by_cases hs : s = 0
            · simpa using hs
            · exact absurd ⟨rfl, hs⟩ hc1

theorem checkTypeRanges_ok_of {τ : Type} :
    ∀ (pairs : List ((τ × Nat) × Nat)) (idx : Nat),
      (idx = 0 → ∀ q ∈ pairs.head?, q.1.2 = 0) →
      (∀ p ∈ pairs, p.1.2 ≤ p.2) →
      checkTypeRanges idx pairs =
        .ok (pairs.map (fun p => (p.1.1, p.1.2, p.2))) := by
  intro pairs
  induction pairs with
  | nil =>
    intro idx h1 h2
    rfl
  | cons p rest ih =>
    rcases p with ⟨⟨t, s⟩, st⟩
    intro idx h1 h2
    have hc1 : ¬ (idx = 0 ∧ s ≠ 0) := by
      rintro ⟨hidx, hs⟩
      exact hs (h1 hidx ((t, s), st) (by simp))
    have hc2 : ¬ (s > st) := by
      have := h2 ((t, s), st) (by simp)
      simpa using this
    rw [checkTypeRanges, if_neg hc1, if_neg hc2,
      ih (idx + 1) (by omega) (fun q hq => h2 q (List.mem_cons_of_mem _ hq))]
    rfl

theorem zip_typeStops_map_fst {τ : Type} :
    ∀ (ts : List (τ × Nat)) (N : Nat),
      (ts.zip (typeStops ts N)).map (fun p => p.1.1) = ts.map (fun p => p.1) := by
  intro ts
  induction ts with
  | nil =>
    intro N
    rfl
  | cons p rest ih =>
    intro N
    cases rest with
    | nil => rfl
    | cons q rest2 =>
      show ((p, q.2) :: ((q :: rest2).zip (typeStops (q :: rest2) N))).map
          (fun p => p.1.1) = p.1 :: ((q :: rest2).map (fun p => p.1))
      rw [List.map_cons]
      exact congrArg (p.1 :: ·) (ih N)

theorem rangesFrom_zip {τ : Type} :
    ∀ (ts : List (τ × Nat)) (N c : Nat),
      (match ts with
       | [] => c = N
       | p :: _ => p.2 = c) →
      (∀ p ∈ ts.zip (typeStops ts N), p.1.2 ≤ p.2) →
      rangesFrom c ((ts.zip (typeStops ts N)).map (fun p => (p.1.1, p.1.2, p.2))) N := by
  intro ts
  induction ts with
  | nil =>
    intro N c h1 _
    exact h1
  | cons p rest ih =>
    intro N c h1 h2
    cases rest with
    | nil =>
      refine ⟨h1, ?_, rfl⟩
      simpa using h2 (p, N) (by simp [typeStops])
    | cons q rest2 =>
      have hzip : (p :: q :: rest2).zip (typeStops (p :: q :: rest2) N) =
          (p, q.2) :: ((q :: rest2).zip (typeStops (q :: rest2) N)) := rfl
      rw [hzip, List.map_cons]
      refine ⟨h1, ?_, ?_⟩
      · exact h2 (p, q.2) (by rw [hzip] ; exact List.mem_cons_self _ _)
      · apply ih N q.2 rfl
        intro x hx
        exact h2 x (by rw [hzip] ; exact List.mem_cons_of_mem _ hx)

theorem flatten_replicate_length {τ : Type} :
    ∀ (rs : List (τ × Nat × Nat)) (cs : List Nat), cs.length = rs.length →
      (List.flatten ((cs.zip (rs.map (fun r => r.2.2 - r.2.1))).map
        (fun p => List.replicate p.2 p.1))).length =
      (rs.map (fun r => r.2.2 - r.2.1)).sum := by
  intro rs
  induction rs with
  | nil =>
    intro cs h
    have : cs = [] := List.length_eq_zero.mp (by simpa using h)
    subst this
    rfl
  | cons r rest ih =>
    intro cs h
    cases cs with
    | nil => simp at h
    | cons c0 crest =>
      have hlen : crest.length = rest.length := by simpa using h
      rw [List.map_cons, List.zip_cons_cons, List.map_cons, List.flatten_cons,
        List.length_append, List.length_replicate, List.sum_cons, ih crest hlen]

theorem flatten_replicate_getD {τ : Type} :
    ∀ (rs : List (τ × Nat × Nat)) (cs : List Nat) (c nn : Nat),
      rangesFrom c rs nn → cs.length = rs.length →
      ∀ (n i : Nat) (hi : i < rs.length),
        rs[i].2.1 ≤ n → n < rs[i].2.2 →
        (List.flatten ((cs.zip (rs.map (fun r => r.2.2 - r.2.1))).map
          (fun p => List.replicate p.2 p.1))).getD (n - c) 0 = cs.getD i 0 := by
  intro rs
  induction rs with
  | nil =>
    intro cs c nn hr hlen n i hi
    exact absurd hi (by simp)
  | cons r rest ih =>
    intro cs c nn hr hlen n i hi h1 h2
    cases cs with
    | nil => simp at hlen
    | cons c0 crest =>
      have hlen2 : crest.length = rest.length := by simpa using hlen
      rcases hr with ⟨hstart, hle, hrest⟩
      rw [List.map_cons, List.zip_cons_cons, List.map_cons, List.flatten_cons]
      cases i with
      | zero =>
        have hb1 : r.2.1 ≤ n := by simpa using h1
        have hb2 : n < r.2.2 := by simpa using h2
        have hidx : n - c < (List.replicate (r.2.2 - r.2.1) c0).length := by
          rw [List.length_replicate]
          omega
        rw [List.getD_append _ _ _ _ hidx, List.getD_eq_getElem _ _ hidx,
          List.getElem_replicate]
        rfl
      | succ j =>
        have hj : j < rest.length := by simpa using hi
        have hb1 : rest[j].2.1 ≤ n := by
          have : (r :: rest)[j + 1] = rest[j] := List.getElem_cons_succ ..
          rw [this] at h1
          exact h1
        have hb2 : n < rest[j].2.2 := by
          have : (r :: rest)[j + 1] = rest[j] := List.getElem_cons_succ ..
          rw [this] at h2
          exact h2
        have hge : r.2.2 ≤ rest[j].2.1 := by
          have hm : rest[j] ∈ rest := List.getElem_mem hj
          exact ((rangesFrom_bounds rest r.2.2 nn hrest).2 rest[j] hm).1
        have hlenrep : (List.replicate (r.2.2 - r.2.1) c0).length ≤ n - c := by
          rw [List.length_replicate]
          omega
        rw [List.getD_append_right _ _ _ _ hlenrep]
        have hidx2 : n - c - (List.replicate (r.2.2 - r.2.1) c0).length = n - r.2.2 := by
          rw [List.length_replicate]
          omega
        rw [hidx2, ih crest r.2.2 nn hrest hlen2 n j hj hb1 hb2]
        rfl

theorem map_getIndexer_toNat_eq_range {τ : Type} [DecidableEq τ] (l : List τ)
    (h : l.Nodup) :
    l.map (fun t => (getIndexer l t).toNat) = List.range l.length := by
  apply List.ext_getElem
  · simp
  · intro i h1 h2
    have hil : i < l.length := by simpa using h1
    rw [List.getElem_map, List.getElem_range]
    have hmem : l[i] ∈ l := List.getElem_mem hil
    rw [getIndexer_mem hmem, Int.toNat_natCast]
    have hlt : l.indexOf l[i] < l.length := List.indexOf_lt_length.mpr hmem
    have heq : l[l.indexOf l[i]] = l[i] := List.getElem_indexOf hlt
    exact (h.getElem_inj_iff).mp heq

theorem lookup_of_nodup_keys {τ β : Type} [DecidableEq τ] :
    ∀ (rs : List (τ × β)) (i : Nat) (hi : i < rs.length),
      (rs.map (fun r => r.1)).Nodup →
      rs.lookup rs[i].1 = some rs[i].2 := by
  intro rs
  induction rs with
  | nil =>
    intro i hi
    exact absurd hi (by simp)
  | cons r rest ih =>
    rcases r with ⟨k, v⟩
    intro i hi hnd
    rcases List.pairwise_cons.mp hnd with ⟨hk, hnd2⟩
    cases i with
    | zero =>
      simp [List.lookup]
    | succ j =>
      have hj : j < rest.length := by simpa using hi
      have hh : ((k, v) :: rest)[j + 1] = rest[j] := List.getElem_cons_succ ..
      rw [hh]
      have hne : (rest[j].1 == k) = false := by
        rw [beq_eq_false_iff_ne]
        intro hc
        have hmem : rest[j].1 ∈ rest.map (fun r => r.1) :=
          List.mem_map_of_mem _ (List.getElem_mem hj)
        rw [hc] at hmem
        rcases List.mem_map.mp hmem with ⟨x, hx1, hx2⟩
        exact (hk (x.1) (List.mem_map_of_mem _ hx1) hx2.symm).elim
      rw [List.lookup, hne]
      exact ih j hj hnd2

theorem zip_typeStops_length {τ : Type} (ts : List (τ × Nat)) (N : Nat) :
    (ts.zip (typeStops ts N)).length = ts.length := by
  cases ts with
  | nil => rfl
  | cons p rest =>
    rw [List.length_zip]
    simp [typeStops]

theorem zip_typeStops_head? {τ : Type} (p : τ × Nat) (rest : List (τ × Nat))
    (N : Nat) :
    ((p :: rest).zip (typeStops (p :: rest) N)).head? =
      some (p, (match rest with | [] => N | q :: _ => q.2)) := by
  cases rest <;> rfl

theorem typeSizes_eq {τ : Type} [DecidableEq τ] (rs : List (τ × Nat × Nat))
    (hnd : (rs.map (fun r => r.1)).Nodup) :
    (rs.map (fun r => r.1)).map (fun t =>
        match rs.lookup t with
        | some r => r.2 - r.1
        | none => 0) = rs.map (fun r => r.2.2 - r.2.1) := by
  apply List.ext_getElem
  · simp
  · intro i h1 h2
    have hi : i < rs.length := by simpa using h2
    simp only [List.getElem_map]
    rw [lookup_of_nodup_keys rs i hi hnd]

theorem build_ok_parts {ι τ : Type} [DecidableEq ι] [DecidableEq τ]
    {ids : List ι} {ts : List (τ × Nat)} {ed : ElementData ι τ}
    (h : ElementData.build ids ts = .ok ed) :
    ids.Nodup ∧ (ts.map (fun p => p.1)).Nodup ∧
    ed.typeIndex.index = ts.map (fun p => p.1) ∧
    ed.typeElementIlocs =
      (ts.zip (typeStops ts ids.length)).map (fun p => (p.1.1, p.1.2, p.2)) ∧
    (∀ p ∈ ts.zip (typeStops ts ids.length), p.1.2 ≤ p.2) ∧
    (∀ q ∈ (ts.zip (typeStops ts ids.length)).head?, q.1.2 = 0) ∧
    ed.typeColumn = List.flatten (((List.range ts.length).zip
        (ed.typeElementIlocs.map (fun r => r.2.2 - r.2.1))).map
        (fun p => List.replicate p.2 p.1)) := by
  rw [ElementData.build] at h
  rcases hchk : checkTypeRanges 0 (ts.zip (typeStops ts ids.length)) with e | ranges
  · rw [hchk] at h
    exact absurd h (by simp)
  · rw [hchk] at h
    rcases hid : ExternalIdIndex.build ids with e2 | idIndex
    · rw [hid] at h
      exact absurd h (by simp)
    · rw [hid] at h
      rcases hty : ExternalIdIndex.build (ts.map (fun p => p.1)) with e3 | typeIndex
      · simp only [hty] at h
        exact absurd h (by simp)
      · simp only [hty] at h
        obtain ⟨hnodid, hidv⟩ := externalIdIndex_build_ok hid
        obtain ⟨hnodty, htyv⟩ := externalIdIndex_build_ok hty
        obtain ⟨hshape, hbounds, hhead⟩ :=
          checkTypeRanges_ok_shape (ts.zip (typeStops ts ids.length)) 0 ranges hchk
        have hed := Except.ok.inj h
        subst hidv
        subst htyv
        have hfst : ranges.map (fun r => r.1) = ts.map (fun p => p.1) := by
          rw [hshape]
          rw [List.map_map]
          exact zip_typeStops_map_fst ts ids.length
        refine ⟨hnodid, hnodty, ?_, ?_, hbounds, hhead rfl, ?_⟩
        · rw [← hed]
        · rw [← hed]
          exact hshape
        · rw [← hed]
          show List.flatten _ = _
          have hcodes : (ts.map (fun p => p.1)).map
              (fun t => (getIndexer (ts.map (fun p => p.1)) t).toNat) =
              List.range ts.length := by
            rw [map_getIndexer_toNat_eq_range _ hnodty, List.length_map]
          have hsizes : (ts.map (fun p => p.1)).map (fun t =>
              match ranges.lookup t with
              | some r => r.2 - r.1
              | none => 0) = ranges.map (fun r => r.2.2 - r.2.1) := by
            rw [← hfst]
            exact typeSizes_eq ranges (by rw [hfst] ; exact hnodty)
          rw [hcodes, hsizes]

theorem build_ok_rangesFrom {ι τ : Type} [DecidableEq ι] [DecidableEq τ]
    {ids : List ι} {ts : List (τ × Nat)} {ed : ElementData ι τ}
    (h : ElementData.build ids ts = .ok ed) (hne : ts = [] → ids = []) :
    rangesFrom 0 ed.typeElementIlocs ids.length := by
  obtain ⟨_, _, _, hranges, hbounds, hhead, _⟩ := build_ok_parts h
  rw [hranges]
  cases ts with
  | nil =>
    have h0 : ids = [] := hne rfl
    subst h0
    show (0 : Nat) = 0
    rfl
  | cons p rest =>
    apply rangesFrom_zip
    · show p.2 = 0
      cases rest with
      | nil =>
        have := hhead (p, ids.length) (by rw [zip_typeStops_head?] ; rfl)
        simpa using this
      | cons q rest2 =>
        have := hhead (p, q.2) (by rw [zip_typeStops_head?] ; rfl)
        simpa using this
    · exact hbounds

theorem build_typeColumn_length {ι τ : Type} [DecidableEq ι] [DecidableEq τ]
    {ids : List ι} {ts : List (τ × Nat)} {ed : ElementData ι τ}
    (h : ElementData.build ids ts = .ok ed) (hne : ts = [] → ids = []) :
    ed.typeColumn.length = ids.length ∧
    ed.typeElementIlocs.length = ts.length := by
  obtain ⟨_, _, _, hranges, _, _, hcol⟩ := build_ok_parts h
  have hchain := build_ok_rangesFrom h hne
  have hrlen : ed.typeElementIlocs.length = ts.length := by
    rw [hranges, List.length_map, zip_typeStops_length]
  refine ⟨?_, hrlen⟩
  rw [hcol, flatten_replicate_length ed.typeElementIlocs (List.range ts.length)
    (by rw [List.length_range, hrlen]), rangesFrom_sum_sizes _ _ _ hchain]
  omega

theorem build_typeOfIloc_covering {ι τ : Type} [DecidableEq ι] [DecidableEq τ]
    {ids : List ι} {ts : List (τ × Nat)} {ed : ElementData ι τ}
    (h : ElementData.build ids ts = .ok ed) (hne : ts = [] → ids = [])
    (n i : Nat) (hn : n < ids.length) (hi : i < ed.typeElementIlocs.length)
    (h1 : ed.typeElementIlocs[i].2.1 ≤ n) (h2 : n < ed.typeElementIlocs[i].2.2) :
    ed.typeColumn.getD n 0 = i ∧
    ed.typeOfIloc ((n : Nat) : Int) = some ed.typeElementIlocs[i].1 := by
  obtain ⟨_, _, htyidx, hranges, _, _, hcol⟩ := build_ok_parts h
  have hchain := build_ok_rangesFrom h hne
  obtain ⟨hcollen, hrlen⟩ := build_typeColumn_length h hne
  have hgetD : ed.typeColumn.getD n 0 = i := by
    have hl : (List.range ts.length).length = ed.typeElementIlocs.length := by
      rw [List.length_range, hrlen]
    have := flatten_replicate_getD ed.typeElementIlocs (List.range ts.length)
      0 ids.length hchain hl n i hi h1 h2
    rw [hcol]
    have hnsub : n - 0 = n := by omega
    rw [← hnsub]
    rw [this]
    have hilt : i < ts.length := by omega
    rw [List.getD_eq_getElem _ _ (by simpa using hilt), List.getElem_range]
  refine ⟨hgetD, ?_⟩
  rw [ElementData.typeOfIloc]
  have hnp1 : npGet ed.typeColumn ((n : Nat) : Int) = some i := by
    unfold npGet
    rw [if_pos (Int.ofNat_nonneg n), Int.toNat_natCast]
    rw [List.getElem?_eq_getElem (by omega)]
    rw [← List.getD_eq_getElem ed.typeColumn 0 (by omega), hgetD]
  rw [hnp1]
  show npGet ed.typeIndex.index ((i : Nat) : Int) = some ed.typeElementIlocs[i].1
  have hfst : ed.typeElementIlocs.map (fun r => r.1) = ts.map (fun p => p.1) := by
    rw [hranges, List.map_map]
    exact zip_typeStops_map_fst ts ids.length
  have hmap : ed.typeIndex.index = ed.typeElementIlocs.map (fun r => r.1) := by
    rw [hfst, htyidx]
  unfold npGet
  rw [if_pos (Int.ofNat_nonneg i), Int.toNat_natCast, hmap, List.getElem?_map,
    List.getElem?_eq_getElem hi]
  rfl

/-- C6 (amended): for inputs with distinct identifiers, distinct type names,
and at least one type whenever there is at least one element, ElementData
construction fails exactly when the first type start is not 0 or some type
start exceeds its computed stop; on success the type ranges cover every iloc
in [0, N) exactly once and type_of_iloc returns the name of the type whose
range contains the iloc. -/
theorem elementData_build_spec {ι τ : Type} [DecidableEq ι] [DecidableEq τ]
    (ids : List ι) (ts : List (τ × Nat))
    (hids : ids.Nodup) (hts : (ts.map (fun p => p.1)).Nodup)
    (hne : ts = [] → ids = []) :
    ((ElementData.build ids ts).isOk = true ↔
      ((∀ q ∈ ts.head?.toList, q.2 = 0) ∧
        ∀ p ∈ ts.zip (typeStops ts ids.length), p.1.2 ≤ p.2)) ∧
    (∀ ed, ElementData.build ids ts = .ok ed →
      (∀ n, n < ids.length →
        ed.typeElementIlocs.countP
          (fun r => decide (r.2.1 ≤ n) && decide (n < r.2.2)) = 1) ∧
      (∀ n, n < ids.length → ∀ r ∈ ed.typeElementIlocs,
        r.2.1 ≤ n → n < r.2.2 → ed.typeOfIloc ((n : Nat) : Int) = some r.1)) := by
  constructor
  · constructor
    · intro hok
      obtain ⟨ed, hed⟩ := (except_isOk_iff _).mp hok
      obtain ⟨_, _, _, _, hbounds, hhead, _⟩ := build_ok_parts hed
      refine ⟨?_, hbounds⟩
      intro q hq
      cases ts with
      | nil => simp at hq
      | cons p rest =>
        simp only [List.head?_cons, Option.toList_some, List.mem_singleton] at hq
        subst hq
        cases rest with
        | nil =>
          have := hhead (q, ids.length) (by rw [zip_typeStops_head?] ; rfl)
          simpa using this
        | cons q2 rest2 =>
          have := hhead (q, q2.2) (by rw [zip_typeStops_head?] ; rfl)
          simpa using this
    · rintro ⟨hhead, hbounds⟩
      have hheadz : ∀ q ∈ (ts.zip (typeStops ts ids.length)).head?, q.1.2 = 0 := by
        intro q hq
        cases ts with
        | nil => simp [typeStops] at hq
        | cons p rest =>
          cases rest with
          | nil =>
            rw [zip_typeStops_head?] at hq
            have hq2 : q = (p, ids.length) := by
              have := hq
              simpa using this.symm
            subst hq2
            simpa using hhead p (by simp)
          | cons q2 rest2 =>
            rw [zip_typeStops_head?] at hq
            have hq2 : q = (p, q2.2) := by
              have := hq
              simpa using this.symm
            subst hq2
            simpa using hhead p (by simp)
      have hchk := checkTypeRanges_ok_of (ts.zip (typeStops ts ids.length)) 0
        (fun _ => hheadz) hbounds
      have hbid : ExternalIdIndex.build ids = .ok ⟨ids⟩ := by
        rw [ExternalIdIndex.build, if_pos hids]
      have hbty : ExternalIdIndex.build (ts.map (fun p => p.1)) =
          .ok ⟨ts.map (fun p => p.1)⟩ := by
        rw [ExternalIdIndex.build, if_pos hts]
      rw [ElementData.build]
      simp [hchk, hbid, hbty, Except.isOk, Except.toBool]
  · intro ed hok
    have hchain := build_ok_rangesFrom hok hne
    constructor
    · intro n hn
      exact rangesFrom_countP_one ed.typeElementIlocs 0 ids.length hchain n
        (by omega) hn
    · intro n hn r hr hr1 hr2
      obtain ⟨i, hi, hieq⟩ := List.mem_iff_getElem.mp hr
      have := (build_typeOfIloc_covering hok hne n i hn hi
        (by rw [hieq] ; exact hr1) (by rw [hieq] ; exact hr2)).2
      rw [this, hieq]

theorem elementData_build_spec_witness :
    ((["a", "b", "c"] : List String).Nodup) ∧
    (((([("t", 0), ("u", 2)] : List (String × Nat))).map (fun p => p.1)).Nodup) ∧
    ((ElementData.build (ι := String) (τ := String) ["a", "b", "c"]
        [("t", 0), ("u", 2)]).isOk = true) := by
  have h := elementData_build_spec (ι := String) (τ := String) ["a", "b", "c"]
    [("t", 0), ("u", 2)] (by decide) (by decide)
    (fun hc => absurd hc (by simp))
  refine ⟨by decide, by decide, ?_⟩
  apply h.1.mpr
  refine ⟨?_, ?_⟩ <;> decide

/-- C6 counterexample: with identifiers ["x", "x"] and the single type
("t", 0), the sole (start, stop) pair is (0, 2), so the first start is 0 and
no start exceeds its stop, yet construction fails (duplicate identifiers):
the claim that construction fails exactly when the first start is nonzero or
some start exceeds its stop is false as stated. -/
theorem elementData_build_claim_counterexample :
    (ElementData.build (ι := String) (τ := String) ["x", "x"] [("t", 0)]).isOk
      = false ∧
    ([(("t" : String), (0 : Nat))].zip
      (typeStops [(("t" : String), (0 : Nat))] (["x", "x"] : List String).length))
      = [(("t", 0), 2)] := by
  constructor
  · rfl
  · rfl

/-- C10: type_of_iloc performs no range validation on its argument: on every
successfully built element collection with at least one element, iloc -1 (the
non-strict missing sentinel with smaller_type=False) silently resolves to the
type of the last element (iloc N - 1) instead of failing. -/
theorem typeOfIloc_neg_one_wraps {ι τ : Type} [DecidableEq ι] [DecidableEq τ]
    (ids : List ι) (ts : List (τ × Nat)) (ed : ElementData ι τ)
    (hok : ElementData.build ids ts = .ok ed) (hne2 : ids ≠ [])
    (hts : ts = [] → ids = []) :
    ed.typeOfIloc (-1 : Int) = ed.typeOfIloc ((ids.length : Int) - 1) ∧
    (ed.typeOfIloc (-1 : Int)).isSome = true := by
  obtain ⟨hcollen, hrlen⟩ := build_typeColumn_length hok hts
  have hN : 1 ≤ ids.length := by
    cases ids with
    | nil => exact absurd rfl hne2
    | cons x xs => simp
  have hnp : npGet ed.typeColumn (-1 : Int) =
      npGet ed.typeColumn ((ids.length : Int) - 1) := by
    unfold npGet
    rw [if_neg (by omega), if_pos (by omega), if_pos (by omega)]
    have h1 : ((-(-1 : Int))).toNat = 1 := by rfl
    have h2 : (((ids.length : Int) - 1)).toNat = ids.length - 1 := by omega
    rw [h1, h2, hcollen]
  have heq : ed.typeOfIloc (-1 : Int) = ed.typeOfIloc ((ids.length : Int) - 1) := by
    rw [ElementData.typeOfIloc, ElementData.typeOfIloc, hnp]
  refine ⟨heq, ?_⟩
  rw [heq]
  have hchain := build_ok_rangesFrom hok hts
  have hcp := rangesFrom_countP_one ed.typeElementIlocs 0 ids.length hchain
    (ids.length - 1) (by omega) (by omega)
  have hpos : 0 < ed.typeElementIlocs.countP
      (fun r => decide (r.2.1 ≤ ids.length - 1) && decide (ids.length - 1 < r.2.2)) := by
    omega
  obtain ⟨r, hr, hpred⟩ := List.countP_pos_iff.mp hpos
  obtain ⟨i, hi, hieq⟩ := List.mem_iff_getElem.mp hr
  simp only [Bool.and_eq_true, decide_eq_true_eq] at hpred
  have hcov := (build_typeOfIloc_covering hok hts (ids.length - 1) i (by omega) hi
    (by rw [hieq] ; exact hpred.1) (by rw [hieq] ; exact hpred.2)).2
  have hcast : ((ids.length - 1 : Nat) : Int) = (ids.length : Int) - 1 := by omega
  rw [← hcast, hcov]
  rfl

theorem typeOfIloc_neg_one_wraps_witness :
    (ElementData.build (ι := String) (τ := String) ["a", "b"] [("t", 0)] =
      .ok ⟨⟨["a", "b"]⟩, ⟨["t"]⟩, [0, 0], [("t", 0, 2)]⟩) ∧
    ((⟨⟨["a", "b"]⟩, ⟨["t"]⟩, [0, 0], [("t", 0, 2)]⟩ :
        ElementData String String).typeOfIloc (-1 : Int) =
      (⟨⟨["a", "b"]⟩, ⟨["t"]⟩, [0, 0], [("t", 0, 2)]⟩ :
        ElementData String String).typeOfIloc (((["a", "b"] : List String).length : Int) - 1)) ∧
    (((⟨⟨["a", "b"]⟩, ⟨["t"]⟩, [0, 0], [("t", 0, 2)]⟩ :
        ElementData String String).typeOfIloc (-1 : Int)).isSome = true) := by
  have hok : ElementData.build (ι := String) (τ := String) ["a", "b"] [("t", 0)] =
      .ok ⟨⟨["a", "b"]⟩, ⟨["t"]⟩, [0, 0], [("t", 0, 2)]⟩ := by rfl
  have h := typeOfIloc_neg_one_wraps ["a", "b"] [("t", 0)] _ hok
    (by simp) (fun hc => absurd hc (by simp))
  exact ⟨hok, h.1, h.2⟩

/-- C4: for every node collection, type name t and global iloc inside the
range of t, the feature slice at that iloc is row (iloc - range start) of the
feature matrix of t; for every global iloc outside the range of t (earlier
type, later type, or invalid), the feature slice fails with the unknown-IDs
domain error, never with an index-bounds failure. -/
theorem features_slice_spec {ι τ φ : Type} [DecidableEq τ]
    (nd : NodeData ι τ φ) (t : τ) (a b : Nat) (mat : List (List φ))
    (hr : nd.typeElementIlocs.lookup t = some (a, b))
    (hm : nd.features.lookup t = some mat)
    (hrows : mat.length = b - a) (hab : a ≤ b) :
    (∀ g : Nat, a ≤ g → g < b →
      nd.featureSlice t [((g : Nat) : Int)] = .ok [mat.getD (g - a) []]) ∧
    (∀ g : Int, (g < (a : Int) ∨ (b : Int) ≤ g) →
      nd.featureSlice t [g] = .error "unknown IDs") := by
  constructor
  · intro g hga hgb
    have hcond : ([((g : Nat) : Int) - ((a : Nat) : Int)].any
        (fun i => decide (i < 0))) = false := by
      simp only [List.any_cons, List.any_nil, Bool.or_false,
        decide_eq_false_iff_not]
      omega
    have hginta : (((g : Nat) : Int) - ((a : Nat) : Int)).toNat = g - a := by omega
    have hlt : g - a < mat.length := by omega
    have hnp : npGet mat (((g : Nat) : Int) - ((a : Nat) : Int)) =
        some (mat.getD (g - a) []) := by
      unfold npGet
      rw [if_pos (by omega), hginta, List.getElem?_eq_getElem hlt,
        List.getD_eq_getElem mat [] hlt]
    simp only [NodeData.featureSlice, hr, hm, hcond, Bool.false_eq_true,
      if_false, List.map_cons, List.map_nil, List.mapM_cons, List.mapM_nil,
      hnp, Option.pure_def, Option.bind_eq_bind, Option.some_bind]
  · intro g hout
    rcases hout with hlt | hge
    · have hcond : ([g - ((a : Nat) : Int)].any
          (fun i => decide (i < 0))) = true := by
        simp only [List.any_cons, List.any_nil, Bool.or_false, decide_eq_true_eq]
        omega
      simp only [NodeData.featureSlice, hr, List.map_cons, List.map_nil,
        hcond, if_true]
    · have hcond : ([g - ((a : Nat) : Int)].any
          (fun i => decide (i < 0))) = false := by
        simp only [List.any_cons, List.any_nil, Bool.or_false,
          decide_eq_false_iff_not]
        omega
      have hnone : npGet mat (g - ((a : Nat) : Int)) = none := by
        unfold npGet
        rw [if_pos (by omega)]
        apply List.getElem?_eq_none
        omega
      simp only [NodeData.featureSlice, hr, hm, hcond, Bool.false_eq_true,
        if_false, List.map_cons, List.map_nil, List.mapM_cons, List.mapM_nil,
        hnone, Option.pure_def, Option.bind_eq_bind, Option.none_bind]

theorem features_slice_spec_witness :
    ((⟨⟨⟨["n1", "n2"]⟩, ⟨["t"]⟩, [0, 0], [("t", 0, 2)]⟩, [("t", [[7], [8]])]⟩ :
        NodeData String String Int).featureSlice "t" [(1 : Int)] = .ok [[8]]) ∧
    ((⟨⟨⟨["n1", "n2"]⟩, ⟨["t"]⟩, [0, 0], [("t", 0, 2)]⟩, [("t", [[7], [8]])]⟩ :
        NodeData String String Int).featureSlice "t" [(5 : Int)] =
      .error "unknown IDs") ∧
    ((⟨⟨⟨["n1", "n2"]⟩, ⟨["t"]⟩, [0, 0], [("t", 0, 2)]⟩, [("t", [[7], [8]])]⟩ :
        NodeData String String Int).featureSlice "t" [(-1 : Int)] =
      .error "unknown IDs") := by
  have h := features_slice_spec
    (⟨⟨⟨["n1", "n2"]⟩, ⟨["t"]⟩, [0, 0], [("t", 0, 2)]⟩, [("t", [[7], [8]])]⟩ :
      NodeData String String Int) "t" 0 2 [[7], [8]] (by rfl) (by rfl) (by rfl)
    (by omega)
  refine ⟨?_, ?_, ?_⟩
  · have h1 := h.1 1 (by omega) (by omega)
    simpa using h1
  · exact h.2 5 (by norm_num)
  · exact h.2 (-1) (by norm_num)

theorem foldr_max_le {l : List Nat} {N : Nat} (h : ∀ x ∈ l, x < N) :
    l.foldr (fun a m => max (a + 1) m) 0 ≤ N := by
  induction l with
  | nil => simp
  | cons a t ih =>
    simp only [List.foldr_cons]
    have h1 : a < N := h a (List.mem_cons_self a t)
    have h2 := ih (fun x hx => h x (List.mem_cons_of_mem a hx))
    omega

theorem npBincount_eq {l : List Nat} {N : Nat} (h : ∀ x ∈ l, x < N) :
    npBincount N l = (List.range N).map (fun v => l.count v) := by
  unfold npBincount
  have h2 : max N (l.foldr (fun a m => max (a + 1) m) 0) = N := by
    have := foldr_max_le h
    omega
  rw [h2]

theorem zipWith_add_map {α : Type} (f g : α → Nat) (l : List α) :
    (l.map f).zipWith (fun u v => u + v) (l.map g) = l.map (fun x => f x + g x) := by
  induction l with
  | nil => rfl
  | cons a t ih => simp [ih]

theorem scanl_add_getD :
    ∀ (l : List Nat) (a i : Nat), i ≤ l.length →
      (List.scanl (fun u v => u + v) a l).getD i 0 = a + (l.take i).sum := by
  intro l
  induction l with
  | nil =>
    intro a i h
    have h0 : i = 0 := by simpa using h
    subst h0
    simp
  | cons x t ih =>
    intro a i h
    rw [List.scanl_cons]
    cases i with
    | zero => simp
    | succ j =>
      have hj : j ≤ t.length := by simpa using h
      simp only [List.singleton_append, List.getD_cons_succ]
      rw [ih (a + x) j hj, List.take_succ_cons, List.sum_cons]
      omega

theorem getSplits_one_getD {xs : List Nat} {N : Nat} (hb : ∀ x ∈ xs, x < N)
    {n : Nat} (hn : n ≤ N) :
    (getSplits [xs] N).getD n 0 = xs.countP (fun x => x < n) := by
  unfold getSplits npSumVecs
  show (List.scanl (fun u v => u + v) 0 (npBincount N xs)).getD n 0 = _
  rw [npBincount_eq hb]
  rw [scanl_add_getD _ 0 n (by simp [hn])]
  have h1 : ((List.range N).map (fun v => xs.count v)).take n =
      (List.range n).map (fun v => xs.count v) := by
    rw [← List.map_take, List.take_range, Nat.min_eq_left hn]
  rw [h1, sum_range_count]
  omega

theorem getSplits_two_getD {xs ys : List Nat} {N : Nat}
    (hxs : ∀ x ∈ xs, x < N) (hys : ∀ x ∈ ys, x < N) {n : Nat} (hn : n ≤ N) :
    (getSplits [xs, ys] N).getD n 0 =
      xs.countP (fun x => x < n) + ys.countP (fun x => x < n) := by
  unfold getSplits npSumVecs
  show (List.scanl (fun u v => u + v) 0
      ((npBincount N xs).zipWith (fun u v => u + v) (npBincount N ys))).getD n 0 = _
  rw [npBincount_eq hxs, npBincount_eq hys, zipWith_add_map]
  rw [scanl_add_getD _ 0 n (by simp [hn])]
  have h1 : ((List.range N).map (fun v => xs.count v + ys.count v)).take n =
      (List.range n).map (fun v => xs.count v + ys.count v) := by
    rw [← List.map_take, List.take_range, Nat.min_eq_left hn]
  rw [h1, sum_map_add, sum_range_count, sum_range_count]
  omega

theorem getSplits_one_length {xs : List Nat} {N : Nat} (hb : ∀ x ∈ xs, x < N) :
    (getSplits [xs] N).length = N + 1 := by
  unfold getSplits npSumVecs
  show (List.scanl (fun u v => u + v) 0 (npBincount N xs)).length = N + 1
  rw [List.length_scanl, npBincount_eq hb, List.length_map, List.length_range]

theorem getSplits_two_length {xs ys : List Nat} {N : Nat}
    (hxs : ∀ x ∈ xs, x < N) (hys : ∀ x ∈ ys, x < N) :
    (getSplits [xs, ys] N).length = N + 1 := by
  unfold getSplits npSumVecs
  show (List.scanl (fun u v => u + v) 0
      ((npBincount N xs).zipWith (fun u v => u + v) (npBincount N ys))).length = N + 1
  rw [List.length_scanl, npBincount_eq hxs, npBincount_eq hys, zipWith_add_map,
    List.length_map, List.length_range]

theorem group_length (a : FlatAdjacencyList) (n : Nat)
    (h1 : a.splits.getD n 0 ≤ a.splits.getD (n + 1) 0)
    (h2 : a.splits.getD (n + 1) 0 ≤ a.flat.length) :
    (a.group n).length = a.splits.getD (n + 1) 0 - a.splits.getD n 0 := by
  unfold FlatAdjacencyList.group
  rw [List.length_take, List.length_drop]
  omega

theorem monotone_of_adjacent (g : Nat → Nat) (N : Nat)
    (h : ∀ i, i < N → g i ≤ g (i + 1)) :
    ∀ j, j ≤ N → g 0 ≤ g j := by
  intro j
  induction j with
  | zero =>
    intro _
    exact le_refl _
  | succ p ihp =>
    intro hp
    have h1 := h p (by omega)
    have h2 := ihp (by omega)
    omega

theorem sum_range_map_sub (g : Nat → Nat) :
    ∀ (N : Nat), (∀ i, i < N → g i ≤ g (i + 1)) →
      ((List.range N).map (fun n => g (n + 1) - g n)).sum = g N - g 0 := by
  intro N
  induction N with
  | zero => simp
  | succ m ih =>
    intro h
    rw [List.range_succ, List.map_append, List.sum_append,
      ih (fun i hi => h i (by omega))]
    simp only [List.map_cons, List.map_nil, List.sum_cons, List.sum_nil]
    have h1 : g m ≤ g (m + 1) := h m (by omega)
    have h2 : g 0 ≤ g m := monotone_of_adjacent g (m + 1) h m (by omega)
    omega

theorem get_eq_group (a : FlatAdjacencyList) (n : Nat)
    (h : n + 1 < a.splits.length) :
    a.get ((n : Nat) : Int) = .ok (a.group n) := by
  unfold FlatAdjacencyList.get FlatAdjacencyList.group
  rw [if_neg (by omega), Int.toNat_natCast]
  rw [List.getElem?_eq_getElem (by omega), List.getElem?_eq_getElem h]
  rw [List.getD_eq_getElem _ _ (show n < a.splits.length by omega),
    List.getD_eq_getElem _ _ h]

theorem combinedArr_eq (ed : EdgeData) :
    ed.combinedArr = ed.sources ++ ed.maskedTargets := rfl

theorem map_range_getD {α : Type} (l : List α) (d : α) :
    (List.range l.length).map (fun i => l.getD i d) = l := by
  induction l with
  | nil => rfl
  | cons a t ih =>
    rw [List.length_cons, List.range_succ_eq_map, List.map_cons, List.map_map]
    simp only [List.getD_cons_zero]
    have hc : (List.range t.length).map ((fun i => (a :: t).getD i d) ∘ Nat.succ) =
        (List.range t.length).map (fun i => t.getD i d) := by
      apply List.map_congr_left
      intro i _
      simp [Function.comp]
    rw [hc, ih]

theorem countP_range_double (E : Nat) (Q : Nat → Bool) :
    (List.range (2 * E)).countP Q =
      (List.range E).countP Q + (List.range E).countP (fun e => Q (E + e)) := by
  have h2 : 2 * E = E + E := by omega
  rw [h2, List.range_add, List.countP_append, List.countP_map]
  have hc : (List.range E).countP (Q ∘ fun x => E + x) =
      (List.range E).countP (fun e => Q (E + e)) := by
    apply List.countP_congr
    intro x _
    simp [Function.comp]
  rw [hc]

theorem getD_zip_map {α β γ : Type} (l1 : List α) (l2 : List β) (f : α × β → γ)
    (d : γ) (d1 : α) (d2 : β) (e : Nat) (h1 : e < l1.length) (h2 : e < l2.length) :
    ((l1.zip l2).map f).getD e d = f (l1.getD e d1, l2.getD e d2) := by
  rw [List.getD_eq_getElem _ _ (by rw [List.length_map, List.length_zip] ; omega),
    List.getElem_map, List.getElem_zip,
    List.getD_eq_getElem _ _ h1, List.getD_eq_getElem _ _ h2]

theorem filterMap_snd_eq (z : List (Nat × Nat)) (t : Nat) :
    z.filterMap (fun p => if p.2 = t then some p.1 else none) =
      (z.filter (fun p => decide (p.2 = t))).map (fun p => p.1) := by
  induction z with
  | nil => rfl
  | cons a zz ih =>
    by_cases h : a.2 = t <;> simp [List.filterMap_cons, h, ih]

theorem filterMap_loop_eq (z : List (Nat × Nat)) :
    z.filterMap (fun p => if p.1 = p.2 then none else some p.2) =
      (z.filter (fun p => decide (¬ (p.1 = p.2)))).map (fun p => p.2) := by
  induction z with
  | nil => rfl
  | cons a zz ih =>
    by_cases h : a.1 = a.2 <;> simp [List.filterMap_cons, h, ih]

theorem countP_length_split {α : Type} (p : α → Bool) (l : List α) :
    l.countP p + l.countP (fun x => ! p x) = l.length := by
  induction l with
  | nil => rfl
  | cons a t ih =>
    rw [List.countP_cons, List.countP_cons]
    by_cases h : p a = true
    · simp [h]
      omega
    · have h2 : p a = false := by
        cases hpa : p a
        · rfl
        · exact absurd hpa h
      simp [h2]
      omega

theorem maskedTargets_length {ed : EdgeData}
    (hlen : ed.sources.length = ed.targets.length) :
    ed.maskedTargets.length = ed.targets.length := by
  unfold EdgeData.maskedTargets
  rw [List.length_map, List.length_zip]
  omega

theorem maskedTargets_values {ed : EdgeData} (h : ed.WF) :
    ∀ x ∈ ed.maskedTargets,
      x < sentinelOf ed.numberOfNodes ∨ x = sentinelOf ed.numberOfNodes := by
  obtain ⟨hlen, hsrc, htgt, hnt, hN⟩ := h
  have hsen := le_sentinelOf hN
  intro x hx
  unfold EdgeData.maskedTargets at hx
  rcases List.mem_map.mp hx with ⟨p, hp, hpx⟩
  have hp2 := List.of_mem_zip hp
  by_cases hl : p.1 = p.2
  · right
    rw [← hpx, if_pos hl]
  · left
    rw [← hpx, if_neg hl]
    have := htgt p.2 hp2.2
    omega

theorem maskedTargets_countP_sent {ed : EdgeData} (h : ed.WF) :
    ed.maskedTargets.countP (fun x => x = sentinelOf ed.numberOfNodes) =
      ed.numSelfLoops := by
  obtain ⟨hlen, hsrc, htgt, hnt, hN⟩ := h
  have hsen := le_sentinelOf hN
  unfold EdgeData.maskedTargets EdgeData.numSelfLoops
  rw [List.countP_map]
  apply List.countP_congr
  intro p hp
  have hp2 := List.of_mem_zip hp
  by_cases hl : p.1 = p.2
  · simp [Function.comp, hl]
  · have := htgt p.2 hp2.2
    have hne : ¬ (p.2 = sentinelOf ed.numberOfNodes) := by omega
    simp [Function.comp, hl, hne]

theorem masked_filter_aux (s : Nat) :
    ∀ (z : List (Nat × Nat)), (∀ p ∈ z, p.2 < s) →
      (z.map (fun p => if p.1 = p.2 then s else p.2)).filter
          (fun x => decide (x < s)) =
        z.filterMap (fun p => if p.1 = p.2 then none else some p.2) := by
  intro z
  induction z with
  | nil =>
    intro _
    rfl
  | cons p z ih =>
    intro hb
    have hp2 : p.2 < s := hb p (List.mem_cons_self p z)
    have hrest := ih (fun q hq => hb q (List.mem_cons_of_mem p hq))
    rw [List.map_cons, List.filterMap_cons]
    by_cases hl : p.1 = p.2
    · rw [if_pos hl, if_pos hl,
        List.filter_cons_of_neg (by simp), hrest]
    · rw [if_neg hl, if_neg hl,
        List.filter_cons_of_pos (by simpa using hp2), hrest]

theorem maskedTargets_filter {ed : EdgeData} (h : ed.WF) :
    ed.maskedTargets.filter (fun x => decide (x < sentinelOf ed.numberOfNodes)) =
      ed.nonLoopTargets := by
  obtain ⟨hlen, hsrc, htgt, hnt, hN⟩ := h
  have hsen := le_sentinelOf hN
  unfold EdgeData.maskedTargets EdgeData.nonLoopTargets
  apply masked_filter_aux
  intro p hp
  have hp2 := List.of_mem_zip hp
  have := htgt p.2 hp2.2
  omega

theorem nonLoopTargets_values {ed : EdgeData} (h : ed.WF) :
    ∀ x ∈ ed.nonLoopTargets, x < ed.numberOfNodes := by
  obtain ⟨hlen, hsrc, htgt, hnt, hN⟩ := h
  intro x hx
  unfold EdgeData.nonLoopTargets at hx
  rcases List.mem_filterMap.mp hx with ⟨p, hp, hpx⟩
  have hp2 := List.of_mem_zip hp
  by_cases hl : p.1 = p.2
  · rw [if_pos hl] at hpx
    exact absurd hpx (by simp)
  · rw [if_neg hl] at hpx
    have hx2 : x = p.2 := by
      have := Option.some.inj hpx
      omega
    rw [hx2]
    exact htgt p.2 hp2.2

theorem nonLoopTargets_length {ed : EdgeData}
    (hlen : ed.sources.length = ed.targets.length) :
    ed.nonLoopTargets.length = ed.targets.length - ed.numSelfLoops := by
  unfold EdgeData.nonLoopTargets EdgeData.numSelfLoops
  rw [filterMap_loop_eq, List.length_map, ← List.countP_eq_length_filter]
  have hsplit := countP_length_split
    (fun p : Nat × Nat => decide (p.1 = p.2)) (ed.sources.zip ed.targets)
  have hcongr : (ed.sources.zip ed.targets).countP
      (fun x => ! decide (x.1 = x.2)) = (ed.sources.zip ed.targets).countP
      (fun x => decide (¬ (x.1 = x.2))) := by
    apply List.countP_congr
    intro x _
    by_cases hx : x.1 = x.2 <;> simp [hx]
  have hzl : (ed.sources.zip ed.targets).length = ed.targets.length := by
    rw [List.length_zip]
    omega
  omega

theorem numSelfLoops_le {ed : EdgeData}
    (hlen : ed.sources.length = ed.targets.length) :
    ed.numSelfLoops ≤ ed.targets.length := by
  unfold EdgeData.numSelfLoops
  have := List.countP_le_length
    (p := fun p : Nat × Nat => decide (p.1 = p.2)) (l := ed.sources.zip ed.targets)
  rw [List.length_zip] at this
  omega

theorem filteredTargets_eq {ed : EdgeData} (h : ed.WF) :
    ed.filteredTargets = (npSort ed.maskedTargets).filter
      (fun x => decide (x < sentinelOf ed.numberOfNodes)) := by
  have hwf := h
  obtain ⟨hlen, hsrc, htgt, hnt, hN⟩ := h
  unfold EdgeData.filteredTargets
  have hdrop : ed.combinedArr.drop ed.targets.length = ed.maskedTargets := by
    rw [combinedArr_eq, ← hlen, List.drop_left]
  rw [hdrop]
  have hcount : (npSort ed.maskedTargets).countP
      (fun x => x = sentinelOf ed.numberOfNodes) = ed.numSelfLoops := by
    unfold npSort
    rw [(sortByKey_perm (fun x => x) ed.maskedTargets).countP_eq]
    exact maskedTargets_countP_sent hwf
  rw [← hcount]
  exact take_sorted_eq_filter (fun x => x) (sentinelOf ed.numberOfNodes)
    (npSort ed.maskedTargets) (sortByKey_pairwise _ _)
    (fun a ha => maskedTargets_values hwf a
      ((sortByKey_perm _ ed.maskedTargets).mem_iff.mp ha))

theorem filteredTargets_perm {ed : EdgeData} (h : ed.WF) :
    ed.filteredTargets.Perm ed.nonLoopTargets := by
  rw [filteredTargets_eq h, ← maskedTargets_filter h]
  exact (sortByKey_perm _ ed.maskedTargets).filter _

theorem combinedArr_length {ed : EdgeData}
    (hlen : ed.sources.length = ed.targets.length) :
    ed.combinedArr.length = 2 * ed.targets.length := by
  rw [combinedArr_eq, List.length_append, maskedTargets_length hlen]
  omega

theorem combinedArr_values {ed : EdgeData} (h : ed.WF) :
    ∀ x ∈ ed.combinedArr,
      x < sentinelOf ed.numberOfNodes ∨ x = sentinelOf ed.numberOfNodes := by
  have hwf := h
  obtain ⟨hlen, hsrc, htgt, hnt, hN⟩ := h
  have hsen := le_sentinelOf hN
  intro x hx
  rw [combinedArr_eq] at hx
  rcases List.mem_append.mp hx with hx2 | hx2
  · left
    have := hsrc x hx2
    omega
  · exact maskedTargets_values hwf x hx2

theorem combinedArr_countP_sent {ed : EdgeData} (h : ed.WF) :
    ed.combinedArr.countP (fun x => x = sentinelOf ed.numberOfNodes) =
      ed.numSelfLoops := by
  have hwf := h
  obtain ⟨hlen, hsrc, htgt, hnt, hN⟩ := h
  have hsen := le_sentinelOf hN
  rw [combinedArr_eq, List.countP_append, maskedTargets_countP_sent hwf]
  have hzero : ed.sources.countP (fun x => x = sentinelOf ed.numberOfNodes) = 0 := by
    rw [List.countP_eq_zero]
    intro a ha
    have := hsrc a ha
    simp only [decide_eq_true_eq]
    omega
  omega

theorem trimmedFlat_eq {ed : EdgeData} (h : ed.WF) :
    ed.trimmedFlat = (argsort ed.combinedArr).filter
      (fun p => decide (ed.combinedArr.getD p 0 < sentinelOf ed.numberOfNodes)) := by
  have hwf := h
  obtain ⟨hlen, hsrc, htgt, hnt, hN⟩ := h
  unfold EdgeData.trimmedFlat
  have hcount : (argsort ed.combinedArr).countP
      (fun p => ed.combinedArr.getD p 0 = sentinelOf ed.numberOfNodes) =
      ed.numSelfLoops := by
    rw [(argsort_perm ed.combinedArr).countP_eq,
      countP_range_getD ed.combinedArr
        (fun x => decide (x = sentinelOf ed.numberOfNodes))]
    exact combinedArr_countP_sent hwf
  rw [← hcount]
  apply take_sorted_eq_filter _ _ _ (argsort_pairwise ed.combinedArr)
  intro p hp
  have hp2 : p ∈ List.range ed.combinedArr.length :=
    (argsort_perm ed.combinedArr).mem_iff.mp hp
  have hp3 : p < ed.combinedArr.length := List.mem_range.mp hp2
  apply combinedArr_values hwf
  rw [List.getD_eq_getElem _ _ hp3]
  exact List.getElem_mem hp3

theorem trimmedFlat_perm {ed : EdgeData} (h : ed.WF) :
    ed.trimmedFlat.Perm ((List.range (2 * ed.targets.length)).filter
      (fun p => decide (ed.combinedArr.getD p 0 < sentinelOf ed.numberOfNodes))) := by
  have hwf := h
  obtain ⟨hlen, hsrc, htgt, hnt, hN⟩ := h
  rw [trimmedFlat_eq hwf, ← combinedArr_length hlen]
  exact (argsort_perm ed.combinedArr).filter _

theorem trimmedFlat_pairwise {ed : EdgeData} (h : ed.WF) :
    ed.trimmedFlat.Pairwise
      (fun a b => ed.combinedArr.getD a 0 ≤ ed.combinedArr.getD b 0) := by
  rw [trimmedFlat_eq h]
  exact (argsort_pairwise ed.combinedArr).filter _

theorem trimmedFlat_length {ed : EdgeData} (h : ed.WF) :
    ed.trimmedFlat.length = 2 * ed.targets.length - ed.numSelfLoops := by
  obtain ⟨hlen, hsrc, htgt, hnt, hN⟩ := h
  unfold EdgeData.trimmedFlat
  rw [List.length_take, argsort_length, combinedArr_length hlen]
  have := numSelfLoops_le hlen
  omega

theorem countP_lt_zero (l : List Nat) : l.countP (fun x => x < 0) = 0 := by
  rw [List.countP_eq_zero]
  intro a _
  simp

theorem toDirAdjList_degrees_sum {arr : List Nat} {N : Nat}
    (hb : ∀ x ∈ arr, x < N) :
    ((List.range ((toDirAdjList arr N).splits.length - 1)).map
      (fun n => ((toDirAdjList arr N).group n).length)).sum = arr.length := by
  have hsl : (toDirAdjList arr N).splits.length = N + 1 := getSplits_one_length hb
  have hflat : (toDirAdjList arr N).flat.length = arr.length := argsort_length arr
  have hgd : ∀ n, n ≤ N → (toDirAdjList arr N).splits.getD n 0 =
      arr.countP (fun x => x < n) := fun n hn => getSplits_one_getD hb hn
  have hcong : ∀ n ∈ List.range N,
      ((toDirAdjList arr N).group n).length =
        arr.countP (fun x => x < n + 1) - arr.countP (fun x => x < n) := by
    intro n hn
    have hn2 : n < N := List.mem_range.mp hn
    have h1 : (toDirAdjList arr N).splits.getD n 0 ≤
        (toDirAdjList arr N).splits.getD (n + 1) 0 := by
      rw [hgd n (by omega), hgd (n + 1) (by omega)]
      exact countP_lt_mono arr (by omega)
    have h2 : (toDirAdjList arr N).splits.getD (n + 1) 0 ≤
        (toDirAdjList arr N).flat.length := by
      rw [hgd (n + 1) (by omega), hflat]
      have hstep := countP_lt_mono arr (m := n + 1) (n := N) (by omega)
      have hfin := countP_lt_eq_length hb
      omega
    rw [group_length _ n h1 h2, hgd n (by omega), hgd (n + 1) (by omega)]
  rw [hsl]
  simp only [Nat.add_sub_cancel]
  rw [List.map_congr_left hcong,
    sum_range_map_sub (fun m => arr.countP (fun x => x < m)) N
      (fun i _ => countP_lt_mono arr (by omega)),
    countP_lt_eq_length hb, countP_lt_zero]
  omega

theorem filteredTargets_values {ed : EdgeData} (h : ed.WF) :
    ∀ x ∈ ed.filteredTargets, x < ed.numberOfNodes := by
  intro x hx
  exact nonLoopTargets_values h x ((filteredTargets_perm h).mem_iff.mp hx)

theorem bothAdj_splits_getD {ed : EdgeData} (h : ed.WF) {n : Nat}
    (hn : n ≤ ed.numberOfNodes) :
    ed.bothAdj.splits.getD n 0 =
      ed.sources.countP (fun x => x < n) +
        ed.nonLoopTargets.countP (fun x => x < n) := by
  have hwf := h
  obtain ⟨hlen, hsrc, htgt, hnt, hN⟩ := h
  show (getSplits [ed.sources, ed.filteredTargets] ed.numberOfNodes).getD n 0 = _
  rw [getSplits_two_getD hsrc (filteredTargets_values hwf) hn,
    (filteredTargets_perm hwf).countP_eq]

theorem bothAdj_splits_length {ed : EdgeData} (h : ed.WF) :
    ed.bothAdj.splits.length = ed.numberOfNodes + 1 := by
  have hwf := h
  obtain ⟨hlen, hsrc, htgt, hnt, hN⟩ := h
  show (getSplits [ed.sources, ed.filteredTargets] ed.numberOfNodes).length = _
  exact getSplits_two_length hsrc (filteredTargets_values hwf)

theorem bothAdj_flat_length {ed : EdgeData} (h : ed.WF) :
    ed.bothAdj.flat.length = 2 * ed.targets.length - ed.numSelfLoops := by
  show (ed.trimmedFlat.map (fun p => p % ed.targets.length)).length = _
  rw [List.length_map]
  exact trimmedFlat_length h

theorem bothAdj_group_length {ed : EdgeData} (h : ed.WF) {n : Nat}
    (hn : n < ed.numberOfNodes) :
    (ed.bothAdj.group n).length =
      (ed.sources.countP (fun x => x < n + 1) +
        ed.nonLoopTargets.countP (fun x => x < n + 1)) -
      (ed.sources.countP (fun x => x < n) +
        ed.nonLoopTargets.countP (fun x => x < n)) := by
  have hwf := h
  obtain ⟨hlen, hsrc, htgt, hnt, hN⟩ := h
  have hnl := nonLoopTargets_values hwf
  have h1 : ed.bothAdj.splits.getD n 0 ≤ ed.bothAdj.splits.getD (n + 1) 0 := by
    rw [bothAdj_splits_getD hwf (by omega), bothAdj_splits_getD hwf (by omega)]
    have := countP_lt_mono ed.sources (m := n) (n := n + 1) (by omega)
    have := countP_lt_mono ed.nonLoopTargets (m := n) (n := n + 1) (by omega)
    omega
  have h2 : ed.bothAdj.splits.getD (n + 1) 0 ≤ ed.bothAdj.flat.length := by
    rw [bothAdj_splits_getD hwf (by omega), bothAdj_flat_length hwf]
    have hs1 := countP_lt_mono ed.sources (m := n + 1) (n := ed.numberOfNodes) (by omega)
    have hs2 := countP_lt_mono ed.nonLoopTargets
      (m := n + 1) (n := ed.numberOfNodes) (by omega)
    have hs3 := countP_lt_eq_length hsrc
    have hs4 := countP_lt_eq_length hnl
    have hs5 := nonLoopTargets_length hlen
    have hs6 := numSelfLoops_le hlen
    omega
  rw [group_length _ n h1 h2, bothAdj_splits_getD hwf (by omega),
    bothAdj_splits_getD hwf (by omega)]

theorem bothAdj_degrees_sum {ed : EdgeData} (h : ed.WF) :
    ((List.range (ed.bothAdj.splits.length - 1)).map
      (fun n => (ed.bothAdj.group n).length)).sum =
      2 * ed.targets.length - ed.numSelfLoops := by
  have hwf := h
  obtain ⟨hlen, hsrc, htgt, hnt, hN⟩ := h
  have hnl := nonLoopTargets_values hwf
  rw [bothAdj_splits_length hwf]
  simp only [Nat.add_sub_cancel]
  have hcong : ∀ n ∈ List.range ed.numberOfNodes,
      (ed.bothAdj.group n).length =
        (ed.sources.countP (fun x => x < n + 1) +
          ed.nonLoopTargets.countP (fun x => x < n + 1)) -
        (ed.sources.countP (fun x => x < n) +
          ed.nonLoopTargets.countP (fun x => x < n)) := by
    intro n hn
    exact bothAdj_group_length hwf (List.mem_range.mp hn)
  rw [List.map_congr_left hcong,
    sum_range_map_sub (fun m => ed.sources.countP (fun x => x < m) +
      ed.nonLoopTargets.countP (fun x => x < m)) ed.numberOfNodes (by
        intro i _
        have h1 := countP_lt_mono ed.sources (m := i) (n := i + 1) (by omega)
        have h2 := countP_lt_mono ed.nonLoopTargets (m := i) (n := i + 1) (by omega)
        simp only
        omega)]
  simp only [countP_lt_zero, countP_lt_eq_length hsrc, countP_lt_eq_length hnl]
  have hs5 := nonLoopTargets_length hlen
  have hs6 := numSelfLoops_le hlen
  omega

/-- C2: over every well-formed edge collection with E edges, the degrees
computed from the cached adjacency views sum to 2E minus the number of
self-loops in the undirected view, and to E in each of the out and in
views. -/
theorem degrees_sums {ed : EdgeData} (h : ed.WF) :
    ((ed.degrees true true).map List.sum =
      .ok (2 * ed.targets.length - ed.numSelfLoops)) ∧
    ((ed.degrees false true).map List.sum = .ok ed.targets.length) ∧
    ((ed.degrees true false).map List.sum = .ok ed.targets.length) := by
  have hwf := h
  obtain ⟨hlen, hsrc, htgt, hnt, hN⟩ := h
  refine ⟨?_, ?_, ?_⟩
  · show ((ed.degrees true true).map List.sum = _)
    have hadj : ed.adjLookup true true = .ok ed.bothAdj := rfl
    rw [EdgeData.degrees, hadj]
    simp only [Except.map]
    rw [bothAdj_degrees_sum hwf]
  · have hadj : ed.adjLookup false true = .ok ed.outAdj := rfl
    rw [EdgeData.degrees, hadj]
    simp only [Except.map]
    rw [show ed.outAdj = toDirAdjList ed.sources ed.numberOfNodes from rfl,
      toDirAdjList_degrees_sum hsrc, hlen]
  · have hadj : ed.adjLookup true false = .ok ed.inAdj := rfl
    rw [EdgeData.degrees, hadj]
    simp only [Except.map]
    rw [show ed.inAdj = toDirAdjList ed.targets ed.numberOfNodes from rfl,
      toDirAdjList_degrees_sum htgt]

theorem degrees_sums_witness :
    (EdgeData.WF ⟨[0, 1, 2], [1, 2, 2], 3, [0, 0, 0]⟩) ∧
    (((⟨[0, 1, 2], [1, 2, 2], 3, [0, 0, 0]⟩ : EdgeData).degrees true true).map
      List.sum = .ok 5) ∧
    (((⟨[0, 1, 2], [1, 2, 2], 3, [0, 0, 0]⟩ : EdgeData).degrees false true).map
      List.sum = .ok 3) ∧
    (((⟨[0, 1, 2], [1, 2, 2], 3, [0, 0, 0]⟩ : EdgeData).degrees true false).map
      List.sum = .ok 3) := by
  have hwf : EdgeData.WF ⟨[0, 1, 2], [1, 2, 2], 3, [0, 0, 0]⟩ := by
    refine ⟨rfl, ?_, ?_, rfl, ?_⟩ <;> decide
  have h := degrees_sums hwf
  exact ⟨hwf, h.1, h.2.1, h.2.2⟩

/-- C9 (corrected): group lookup refuses every negative index, and so does
edge_ilocs with a negative node iloc, for every direction combination, both
without an other-endpoint-type filter and with a filter whose type occurs in
the by-type index; but when the filter names a type absent from the by-type
index, the defaultdict fallback returns an empty list even for a negative
node iloc, so the lookup does not fail there. -/
theorem edgeIlocs_negative_spec (a : FlatAdjacencyList) (ed : EdgeData)
    (i : Int) (hi : i < 0) (ins outs : Bool) (hdir : ins || outs = true) :
    a.get i = .error "node ilocs must be non-negative." ∧
    ed.edgeIlocs i ins outs none = .error "node ilocs must be non-negative." ∧
    ∀ t index, ed.adjLookupByType ins outs = .ok index →
      ((index.lookup t).isSome →
        ed.edgeIlocs i ins outs (some t) =
          .error "node ilocs must be non-negative.") ∧
      (index.lookup t = none → ed.edgeIlocs i ins outs (some t) = .ok []) := by
  have hget : ∀ b : FlatAdjacencyList,
      b.get i = .error "node ilocs must be non-negative." := by
    intro b
    unfold FlatAdjacencyList.get
    simp [hi]
  refine ⟨hget a, ?_, ?_⟩
  · cases ins <;> cases outs <;>
      simp_all [EdgeData.edgeIlocs, EdgeData.adjLookup]
  · intro t index hok
    constructor
    · intro hsome
      obtain ⟨adj, hadj⟩ := Option.isSome_iff_exists.mp hsome
      simp [EdgeData.edgeIlocs, hok, hadj, hget]
    · intro hnone
      simp [EdgeData.edgeIlocs, hok, hnone]

/-- The original C9 claim is false: on the single-self-loop graph, asking for
edge ilocs of node iloc -1 restricted to the absent other-endpoint type 5
returns an empty list instead of failing. -/
theorem edgeIlocs_negative_counterexample :
    (EdgeData.mk [0] [0] 1 [0]).edgeIlocs (-1) true true (some 5) =
      .ok [] := by
  rfl

theorem edgeIlocs_negative_spec_witness :
    (FlatAdjacencyList.mk [0] [0, 1]).get (-1) =
      .error "node ilocs must be non-negative." ∧
    (EdgeData.mk [0] [0] 1 [0]).edgeIlocs (-1) true false none =
      .error "node ilocs must be non-negative." := by
  have h := edgeIlocs_negative_spec (FlatAdjacencyList.mk [0] [0, 1])
    (EdgeData.mk [0] [0] 1 [0]) (-1) (by decide) true false (by decide)
  exact ⟨h.1, h.2.1⟩

theorem comb_getD_left {ed : EdgeData}
    (hlen : ed.sources.length = ed.targets.length)
    {e : Nat} (he : e < ed.targets.length) :
    ed.combinedArr.getD e 0 = ed.sources.getD e 0 := by
  rw [combinedArr_eq]
  exact List.getD_append _ _ _ _ (by omega)

theorem comb_getD_right {ed : EdgeData}
    (hlen : ed.sources.length = ed.targets.length)
    {e : Nat} (he : e < ed.targets.length) :
    ed.combinedArr.getD (ed.targets.length + e) 0 =
      if ed.sources.getD e 0 = ed.targets.getD e 0
        then sentinelOf ed.numberOfNodes else ed.targets.getD e 0 := by
  rw [combinedArr_eq, List.getD_append_right _ _ _ _ (by omega)]
  have hsub : ed.targets.length + e - ed.sources.length = e := by omega
  rw [hsub]
  unfold EdgeData.maskedTargets
  rw [getD_zip_map ed.sources ed.targets _ 0 0 0 e (by omega) he]

theorem trimmedFlat_countP_lt {ed : EdgeData} (h : ed.WF) {n : Nat}
    (hn : n ≤ ed.numberOfNodes) :
    ed.trimmedFlat.countP (fun p => decide (ed.combinedArr.getD p 0 < n)) =
      ed.sources.countP (fun x => x < n) +
        ed.nonLoopTargets.countP (fun x => x < n) := by
  have hwf := h
  obtain ⟨hlen, hsrc, htgt, hnt, hN⟩ := h
  have hsen := le_sentinelOf hN
  rw [trimmedFlat_eq hwf, List.countP_filter]
  have hcg : (argsort ed.combinedArr).countP
      (fun a => decide (ed.combinedArr.getD a 0 < n) &&
        decide (ed.combinedArr.getD a 0 < sentinelOf ed.numberOfNodes)) =
      (argsort ed.combinedArr).countP
        (fun a => decide (ed.combinedArr.getD a 0 < n)) := by
    apply List.countP_congr
    intro a _
    by_cases hc : ed.combinedArr.getD a 0 < n
    · have hc2 : ed.combinedArr.getD a 0 < sentinelOf ed.numberOfNodes := by omega
      rw [decide_eq_true hc, decide_eq_true hc2]
      simp
    · rw [decide_eq_false hc]
      simp
  rw [hcg, (argsort_perm ed.combinedArr).countP_eq,
    countP_range_getD ed.combinedArr (fun x => decide (x < n)), combinedArr_eq,
    List.countP_append]
  congr 1
  rw [← maskedTargets_filter hwf, List.countP_filter]
  apply List.countP_congr
  intro a _
  by_cases hc : a < n
  · have hc2 : a < sentinelOf ed.numberOfNodes := by omega
    simp [hc, hc2]
  · simp [hc]

theorem comb_key_cases {ed : EdgeData} (h : ed.WF) {n p : Nat}
    (hns : n < sentinelOf ed.numberOfNodes)
    (hp : p < 2 * ed.targets.length) (hk : ed.combinedArr.getD p 0 = n) :
    (p < ed.targets.length ∧ ed.sources.getD p 0 = n) ∨
    (ed.targets.length ≤ p ∧
      ¬ (ed.sources.getD (p - ed.targets.length) 0 =
          ed.targets.getD (p - ed.targets.length) 0) ∧
      ed.targets.getD (p - ed.targets.length) 0 = n) := by
  obtain ⟨hlen, hsrc, htgt, hnt, hN⟩ := h
  by_cases hpe : p < ed.targets.length
  · left
    refine ⟨hpe, ?_⟩
    rw [← comb_getD_left hlen hpe]
    exact hk
  · right
    have he : p - ed.targets.length < ed.targets.length := by omega
    have hpe2 : ed.targets.length + (p - ed.targets.length) = p := by omega
    have hval := comb_getD_right hlen he
    rw [hpe2, hk] at hval
    by_cases hl : ed.sources.getD (p - ed.targets.length) 0 =
        ed.targets.getD (p - ed.targets.length) 0
    · rw [if_pos hl] at hval
      omega
    · rw [if_neg hl] at hval
      exact ⟨by omega, hl, hval.symm⟩

theorem bothAdj_group_eq {ed : EdgeData} (h : ed.WF) {n : Nat}
    (hn : n < ed.numberOfNodes) :
    ed.bothAdj.group n =
      (ed.trimmedFlat.filter
        (fun p => decide (ed.combinedArr.getD p 0 = n))).map
        (fun p => p % ed.targets.length) := by
  have hwf := h
  obtain ⟨hlen, hsrc, htgt, hnt, hN⟩ := h
  have hTFp := trimmedFlat_pairwise hwf
  have hsplitB := sorted_split (fun p => ed.combinedArr.getD p 0) (n + 1)
    ed.trimmedFlat hTFp
  have hsplitA := sorted_split (fun p => ed.combinedArr.getD p 0) n
    (ed.trimmedFlat.filter (fun p => decide (ed.combinedArr.getD p 0 < n + 1)))
    (hTFp.filter _)
  have hAA : (ed.trimmedFlat.filter
      (fun p => decide (ed.combinedArr.getD p 0 < n + 1))).filter
      (fun p => decide (ed.combinedArr.getD p 0 < n)) =
      ed.trimmedFlat.filter (fun p => decide (ed.combinedArr.getD p 0 < n)) := by
    rw [List.filter_filter]
    apply List.filter_congr
    intro p _
    by_cases hc : ed.combinedArr.getD p 0 < n
    · have hc2 : ed.combinedArr.getD p 0 < n + 1 := by omega
      rw [decide_eq_true hc, decide_eq_true hc2]
      simp
    · rw [decide_eq_false hc]
      simp
  have hM : (ed.trimmedFlat.filter
      (fun p => decide (ed.combinedArr.getD p 0 < n + 1))).filter
      (fun p => decide (n ≤ ed.combinedArr.getD p 0)) =
      ed.trimmedFlat.filter (fun p => decide (ed.combinedArr.getD p 0 = n)) := by
    rw [List.filter_filter]
    apply List.filter_congr
    intro p _
    by_cases hc : ed.combinedArr.getD p 0 = n
    · have hc1 : n ≤ ed.combinedArr.getD p 0 := by omega
      have hc2 : ed.combinedArr.getD p 0 < n + 1 := by omega
      rw [decide_eq_true hc, decide_eq_true hc1, decide_eq_true hc2]
      simp
    · rw [decide_eq_false hc]
      by_cases hc1 : n ≤ ed.combinedArr.getD p 0
      · have hc2 : ¬ (ed.combinedArr.getD p 0 < n + 1) := by omega
        rw [decide_eq_false hc2]
        simp
      · rw [decide_eq_false hc1]
        simp
  rw [hAA, hM] at hsplitA
  have hTF2 : ed.trimmedFlat =
      ed.trimmedFlat.filter (fun p => decide (ed.combinedArr.getD p 0 < n)) ++
      (ed.trimmedFlat.filter (fun p => decide (ed.combinedArr.getD p 0 = n)) ++
        ed.trimmedFlat.filter
          (fun p => decide (n + 1 ≤ ed.combinedArr.getD p 0))) := by
    conv_lhs => rw [hsplitB]
    rw [hsplitA, List.append_assoc]
  have hx : ed.bothAdj.splits.getD n 0 =
      (ed.trimmedFlat.filter
        (fun p => decide (ed.combinedArr.getD p 0 < n))).length := by
    rw [bothAdj_splits_getD hwf (by omega),
      ← trimmedFlat_countP_lt hwf (le_of_lt hn)]
    exact List.countP_eq_length_filter _ _
  have hxb : ed.bothAdj.splits.getD (n + 1) 0 =
      (ed.trimmedFlat.filter
        (fun p => decide (ed.combinedArr.getD p 0 < n + 1))).length := by
    rw [bothAdj_splits_getD hwf (by omega),
      ← trimmedFlat_countP_lt hwf (by omega)]
    exact List.countP_eq_length_filter _ _
  have hy : ed.bothAdj.splits.getD (n + 1) 0 - ed.bothAdj.splits.getD n 0 =
      (ed.trimmedFlat.filter
        (fun p => decide (ed.combinedArr.getD p 0 = n))).length := by
    rw [hx, hxb, hsplitA, List.length_append]
    omega
  have hkey : ∀ (A M B : List Nat), ed.trimmedFlat = A ++ (M ++ B) →
      ed.bothAdj.splits.getD n 0 = A.length →
      ed.bothAdj.splits.getD (n + 1) 0 - ed.bothAdj.splits.getD n 0 = M.length →
      (ed.trimmedFlat.drop (ed.bothAdj.splits.getD n 0)).take
        (ed.bothAdj.splits.getD (n + 1) 0 - ed.bothAdj.splits.getD n 0) = M := by
    intro A M B hTF hxa hya
    rw [hya, hxa, hTF, List.drop_left, List.take_left]
  have hslice := hkey _ _ _ hTF2 hx hy
  have hflat : ed.bothAdj.flat =
      ed.trimmedFlat.map (fun p => p % ed.targets.length) := rfl
  unfold FlatAdjacencyList.group
  rw [hflat, ← List.map_drop, ← List.map_take, hslice]

theorem mod_shift_eq {E p : Nat} (h1 : E ≤ p) (h2 : p < 2 * E) :
    p % E = p - E := by
  have h3 : p = E + (p - E) := by omega
  conv_lhs => rw [h3]
  rw [Nat.add_mod_left, Nat.mod_eq_of_lt (by omega)]

/-- C1: for every well-formed edge collection and in-range node iloc n, the
undirected adjacency group of n is a permutation of the ilocs of the edges
incident to n (as source or target), each counted once; consequently the
undirected degree of n is the number of its incident edges, so a self-loop
contributes one, not two. -/
theorem bothAdj_incident_edges {ed : EdgeData} (h : ed.WF) {n : Nat}
    (hn : n < ed.numberOfNodes) :
    (ed.bothAdj.group n).Perm
      ((List.range ed.targets.length).filter
        (fun e => decide (ed.sources.getD e 0 = n) ||
          decide (ed.targets.getD e 0 = n))) ∧
    ed.degree n true true =
      ((List.range ed.targets.length).filter
        (fun e => decide (ed.sources.getD e 0 = n) ||
          decide (ed.targets.getD e 0 = n))).length := by
  have hwf := h
  obtain ⟨hlen, hsrc, htgt, hnt, hN⟩ := h
  have hsen := le_sentinelOf hN
  have hns : n < sentinelOf ed.numberOfNodes := by omega
  have hgroup := bothAdj_group_eq hwf hn
  have hMR : (ed.trimmedFlat.filter
      (fun p => decide (ed.combinedArr.getD p 0 = n))).Perm
      ((List.range (2 * ed.targets.length)).filter
        (fun p => decide (ed.combinedArr.getD p 0 = n))) := by
    have h1 := (trimmedFlat_perm hwf).filter
      (fun p => decide (ed.combinedArr.getD p 0 = n))
    have h2 : ((List.range (2 * ed.targets.length)).filter
        (fun p => decide (ed.combinedArr.getD p 0 <
          sentinelOf ed.numberOfNodes))).filter
        (fun p => decide (ed.combinedArr.getD p 0 = n)) =
        (List.range (2 * ed.targets.length)).filter
          (fun p => decide (ed.combinedArr.getD p 0 = n)) := by
      rw [List.filter_filter]
      apply List.filter_congr
      intro p _
      by_cases hc : ed.combinedArr.getD p 0 = n
      · have hc2 : ed.combinedArr.getD p 0 < sentinelOf ed.numberOfNodes := by
          omega
        rw [decide_eq_true hc, decide_eq_true hc2]
        simp
      · rw [decide_eq_false hc]
        simp
    rw [h2] at h1
    exact h1
  have hRnd : ((List.range (2 * ed.targets.length)).filter
      (fun p => decide (ed.combinedArr.getD p 0 = n))).Nodup :=
    (List.nodup_range _).filter _
  have hZnd : ((List.range ed.targets.length).filter
      (fun e => decide (ed.sources.getD e 0 = n) ||
        decide (ed.targets.getD e 0 = n))).Nodup :=
    (List.nodup_range _).filter _
  have hinj : ∀ x ∈ (List.range (2 * ed.targets.length)).filter
      (fun p => decide (ed.combinedArr.getD p 0 = n)),
      ∀ y ∈ (List.range (2 * ed.targets.length)).filter
        (fun p => decide (ed.combinedArr.getD p 0 = n)),
      x % ed.targets.length = y % ed.targets.length → x = y := by
    intro x hx y hy hxy
    rcases List.mem_filter.mp hx with ⟨hxr, hxk⟩
    rcases List.mem_filter.mp hy with ⟨hyr, hyk⟩
    have hx2 := List.mem_range.mp hxr
    have hy2 := List.mem_range.mp hyr
    have hkx := of_decide_eq_true hxk
    have hky := of_decide_eq_true hyk
    rcases comb_key_cases hwf hns hx2 hkx with ⟨hxe, hxs⟩ | ⟨hxe, hxnl, hxt⟩ <;>
      rcases comb_key_cases hwf hns hy2 hky with ⟨hye, hys⟩ | ⟨hye, hynl, hyt⟩
    · rw [Nat.mod_eq_of_lt hxe, Nat.mod_eq_of_lt hye] at hxy
      exact hxy
    · rw [Nat.mod_eq_of_lt hxe, mod_shift_eq hye hy2] at hxy
      exfalso
      apply hynl
      rw [← hxy] at hyt ⊢
      rw [hxs, hyt]
    · rw [mod_shift_eq hxe hx2, Nat.mod_eq_of_lt hye] at hxy
      exfalso
      apply hxnl
      rw [hxy] at hxt ⊢
      rw [hys, hxt]
    · rw [mod_shift_eq hxe hx2, mod_shift_eq hye hy2] at hxy
      omega
  have hmapnd : (((List.range (2 * ed.targets.length)).filter
      (fun p => decide (ed.combinedArr.getD p 0 = n))).map
        (fun p => p % ed.targets.length)).Nodup :=
    List.Nodup.map_on hinj hRnd
  have hmem : ∀ a, (a ∈ ((List.range (2 * ed.targets.length)).filter
      (fun p => decide (ed.combinedArr.getD p 0 = n))).map
        (fun p => p % ed.targets.length)) ↔
      (a ∈ (List.range ed.targets.length).filter
        (fun e => decide (ed.sources.getD e 0 = n) ||
          decide (ed.targets.getD e 0 = n))) := by
    intro a
    constructor
    · intro ha
      rcases List.mem_map.mp ha with ⟨p, hp, hpa⟩
      rcases List.mem_filter.mp hp with ⟨hpr, hpk⟩
      have hp2E : p < 2 * ed.targets.length := List.mem_range.mp hpr
      have hk : ed.combinedArr.getD p 0 = n := of_decide_eq_true hpk
      rcases comb_key_cases hwf hns hp2E hk with ⟨hpe, hsv⟩ | ⟨hpe, hnl, htv⟩
      · have hma : a = p := by
          rw [← hpa, Nat.mod_eq_of_lt hpe]
        rw [List.mem_filter]
        refine ⟨List.mem_range.mpr (by omega), ?_⟩
        rw [hma, decide_eq_true hsv, Bool.true_or]
      · have he : p - ed.targets.length < ed.targets.length := by omega
        have hma : a = p - ed.targets.length := by
          rw [← hpa, mod_shift_eq hpe hp2E]
        rw [List.mem_filter]
        refine ⟨List.mem_range.mpr (by omega), ?_⟩
        rw [hma, decide_eq_true htv, Bool.or_true]
    · intro ha
      rcases List.mem_filter.mp ha with ⟨har, hab⟩
      have haE : a < ed.targets.length := List.mem_range.mp har
      by_cases hsv : ed.sources.getD a 0 = n
      · apply List.mem_map.mpr
        refine ⟨a, ?_, Nat.mod_eq_of_lt haE⟩
        rw [List.mem_filter]
        refine ⟨List.mem_range.mpr (by omega), ?_⟩
        apply decide_eq_true
        rw [comb_getD_left hlen haE]
        exact hsv
      · have htv : ed.targets.getD a 0 = n := by
          rw [decide_eq_false hsv, Bool.false_or] at hab
          exact of_decide_eq_true hab
        have hnl : ¬ (ed.sources.getD a 0 = ed.targets.getD a 0) := by
          rw [htv]
          exact hsv
        apply List.mem_map.mpr
        refine ⟨ed.targets.length + a, ?_, by
          rw [Nat.add_mod_left, Nat.mod_eq_of_lt haE]⟩
        rw [List.mem_filter]
        refine ⟨List.mem_range.mpr (by omega), ?_⟩
        apply decide_eq_true
        rw [comb_getD_right hlen haE, if_neg hnl]
        exact htv
  have hperm : (ed.bothAdj.group n).Perm
      ((List.range ed.targets.length).filter
        (fun e => decide (ed.sources.getD e 0 = n) ||
          decide (ed.targets.getD e 0 = n))) := by
    rw [hgroup]
    exact ((hMR.map _).trans
      ((List.perm_ext_iff_of_nodup hmapnd hZnd).mpr hmem))
  refine ⟨hperm, ?_⟩
  have hdeg : ed.degree n true true = (ed.bothAdj.group n).length := by
    have hadj : ed.adjLookup true true = .ok ed.bothAdj := rfl
    unfold EdgeData.degree
    rw [EdgeData.degrees, hadj]
    simp only [Except.toOption, Option.getD_some]
    rw [bothAdj_splits_length hwf]
    simp only [Nat.add_sub_cancel]
    rw [List.getD_eq_getElem _ _ (by
      rw [List.length_map, List.length_range]
      omega)]
    rw [List.getElem_map, List.getElem_range]
  rw [hdeg, hperm.length_eq]

theorem bothAdj_incident_edges_witness :
    EdgeData.WF ⟨[0], [0], 1, [0]⟩ ∧
    ((EdgeData.mk [0] [0] 1 [0]).bothAdj.group 0).Perm
      ((List.range (EdgeData.mk [0] [0] 1 [0]).targets.length).filter
        (fun e => decide ((EdgeData.mk [0] [0] 1 [0]).sources.getD e 0 = 0) ||
          decide ((EdgeData.mk [0] [0] 1 [0]).targets.getD e 0 = 0))) ∧
    (EdgeData.mk [0] [0] 1 [0]).degree 0 true true = 1 := by
  have hwf : EdgeData.WF ⟨[0], [0], 1, [0]⟩ := by
    refine ⟨rfl, ?_, ?_, rfl, ?_⟩ <;> decide
  have h := bothAdj_incident_edges hwf (n := 0) (by decide)
  refine ⟨hwf, h.1, ?_⟩
  rw [h.2]
  rfl

theorem lookup_map_graph {β : Type} (g : Nat → β) (T : List Nat)
    (hT : T.Nodup) {t : Nat} (ht : t ∈ T) :
    (T.map (fun u => (u, g u))).lookup t = some (g t) := by
  rcases List.getElem_of_mem ht with ⟨i, hi, hit⟩
  have hkeys : ((T.map (fun u => (u, g u))).map (fun r => r.1)).Nodup := by
    rw [List.map_map]
    have hc : T.map ((fun r : Nat × β => r.1) ∘ (fun u => (u, g u))) = T := by
      have h2 := List.map_congr_left
        (l := T) (f := (fun r : Nat × β => r.1) ∘ (fun u => (u, g u)))
        (g := fun u => u) (fun u _ => rfl)
      rw [h2]
      simp
    rw [hc]
    exact hT
  have hlen : i < (T.map (fun u => (u, g u))).length := by
    rw [List.length_map]
    exact hi
  have h := lookup_of_nodup_keys (T.map (fun u => (u, g u))) i hlen hkeys
  rw [List.getElem_map, hit] at h
  exact h

theorem sum_map_sub_of_le {α : Type} (f g : α → Nat) (l : List α)
    (h : ∀ x ∈ l, g x ≤ f x) :
    (l.map (fun x => f x - g x)).sum = (l.map f).sum - (l.map g).sum := by
  induction l with
  | nil => rfl
  | cons a t ih =>
    have ha := h a (List.mem_cons_self a t)
    have ht : ∀ x ∈ t, g x ≤ f x := fun x hx => h x (List.mem_cons_of_mem a hx)
    have hsum : (t.map g).sum ≤ (t.map f).sum := List.sum_le_sum ht
    simp only [List.map_cons, List.sum_cons, ih ht]
    omega

theorem sum_map_ite_count (T : List Nat) (a : Nat) :
    (T.map (fun t => if a = t then 1 else 0)).sum = T.count a := by
  induction T with
  | nil => rfl
  | cons b T ih =>
    rw [List.map_cons, List.sum_cons, ih, List.count_cons]
    by_cases hc : a = b
    · simp [hc]
      omega
    · have hba : ¬ b = a := fun hb => hc hb.symm
      simp [hc, hba]

theorem countP_partition (T : List Nat) (hT : T.Nodup) (Q : Nat × Nat → Bool)
    (z : List (Nat × Nat)) (hz : ∀ p ∈ z, p.2 ∈ T) :
    (T.map (fun t => z.countP (fun p => Q p && decide (p.2 = t)))).sum =
      z.countP Q := by
  induction z with
  | nil => simp
  | cons p z ih =>
    have hpz := hz p (List.mem_cons_self p z)
    have hrest := ih (fun q hq => hz q (List.mem_cons_of_mem p hq))
    have hsplit : ∀ t ∈ T, (p :: z).countP (fun q => Q q && decide (q.2 = t)) =
        z.countP (fun q => Q q && decide (q.2 = t)) +
          (if Q p && decide (p.2 = t) then 1 else 0) := by
      intro t _
      rw [List.countP_cons]
    rw [List.map_congr_left hsplit, sum_map_add, hrest, List.countP_cons]
    congr 1
    by_cases hQ : Q p = true
    · have hcg : ∀ t ∈ T, (if Q p && decide (p.2 = t) then 1 else 0) =
          if p.2 = t then 1 else 0 := by
        intro t _
        rw [hQ, Bool.true_and]
        by_cases hc : p.2 = t
        · rw [if_pos (by simpa using hc), if_pos hc]
        · rw [if_neg (by simpa using hc), if_neg hc]
      rw [List.map_congr_left hcg, sum_map_ite_count,
        List.count_eq_one_of_mem hT hpz, if_pos hQ]
    · have hcg : ∀ t ∈ T, (if Q p && decide (p.2 = t) then 1 else 0) = 0 := by
        intro t _
        have hQ2 : Q p = false := by
          cases hq : Q p
          · rfl
          · exact absurd hq hQ
        rw [hQ2, Bool.false_and, if_neg (by simp)]
      rw [List.map_congr_left hcg, if_neg hQ]
      simp

theorem countP_zip_snd (q : Nat → Bool) :
    ∀ (l1 l2 : List Nat), l1.length = l2.length →
      (l1.zip l2).countP (fun p => q p.2) = l2.countP q := by
  intro l1
  induction l1 with
  | nil =>
    intro l2 h
    cases l2 with
    | nil => rfl
    | cons b t => exact absurd h (by simp)
  | cons a t ih =>
    intro l2 h
    cases l2 with
    | nil => exact absurd h (by simp)
    | cons b s =>
      rw [List.zip_cons_cons, List.countP_cons, List.countP_cons,
        ih s (by simpa using h)]

theorem countP_zip_fst (q : Nat → Bool) :
    ∀ (l1 l2 : List Nat), l1.length = l2.length →
      (l1.zip l2).countP (fun p => q p.1) = l1.countP q := by
  intro l1
  induction l1 with
  | nil =>
    intro l2 _
    rfl
  | cons a t ih =>
    intro l2 h
    cases l2 with
    | nil => exact absurd h (by simp)
    | cons b s =>
      rw [List.zip_cons_cons, List.countP_cons, List.countP_cons,
        ih s (by simpa using h)]

theorem splits_one_group_length {flat xs : List Nat} {N n : Nat}
    (hx : ∀ v ∈ xs, v < N) (hn : n < N) (hfl : xs.length ≤ flat.length) :
    ((FlatAdjacencyList.mk flat (getSplits [xs] N)).group n).length =
      xs.countP (fun v => v < n + 1) - xs.countP (fun v => v < n) := by
  have hgd : ∀ k, k ≤ N →
      (FlatAdjacencyList.mk flat (getSplits [xs] N)).splits.getD k 0 =
        xs.countP (fun v => v < k) := by
    intro k hk
    exact getSplits_one_getD hx hk
  have h1 : (FlatAdjacencyList.mk flat (getSplits [xs] N)).splits.getD n 0 ≤
      (FlatAdjacencyList.mk flat (getSplits [xs] N)).splits.getD (n + 1) 0 := by
    rw [hgd n (by omega), hgd (n + 1) (by omega)]
    exact countP_lt_mono xs (by omega)
  have h2 : (FlatAdjacencyList.mk flat (getSplits [xs] N)).splits.getD (n + 1) 0 ≤
      (FlatAdjacencyList.mk flat (getSplits [xs] N)).flat.length := by
    rw [hgd (n + 1) (by omega)]
    have hle := List.countP_le_length (p := fun v => decide (v < n + 1)) (l := xs)
    exact le_trans hle hfl
  rw [group_length _ n h1 h2, hgd n (by omega), hgd (n + 1) (by omega)]

theorem splits_two_group_length {flat xs ys : List Nat} {N n : Nat}
    (hx : ∀ v ∈ xs, v < N) (hy : ∀ v ∈ ys, v < N) (hn : n < N)
    (hfl : xs.length + ys.length ≤ flat.length) :
    ((FlatAdjacencyList.mk flat (getSplits [xs, ys] N)).group n).length =
      (xs.countP (fun v => v < n + 1) + ys.countP (fun v => v < n + 1)) -
      (xs.countP (fun v => v < n) + ys.countP (fun v => v < n)) := by
  have hgd : ∀ k, k ≤ N →
      (FlatAdjacencyList.mk flat (getSplits [xs, ys] N)).splits.getD k 0 =
        xs.countP (fun v => v < k) + ys.countP (fun v => v < k) := by
    intro k hk
    exact getSplits_two_getD hx hy hk
  have h1 : (FlatAdjacencyList.mk flat (getSplits [xs, ys] N)).splits.getD n 0 ≤
      (FlatAdjacencyList.mk flat (getSplits [xs, ys] N)).splits.getD (n + 1) 0 := by
    rw [hgd n (by omega), hgd (n + 1) (by omega)]
    have hm1 := countP_lt_mono xs (m := n) (n := n + 1) (by omega)
    have hm2 := countP_lt_mono ys (m := n) (n := n + 1) (by omega)
    omega
  have h2 : (FlatAdjacencyList.mk flat
      (getSplits [xs, ys] N)).splits.getD (n + 1) 0 ≤
      (FlatAdjacencyList.mk flat (getSplits [xs, ys] N)).flat.length := by
    rw [hgd (n + 1) (by omega)]
    have hl1 := List.countP_le_length (p := fun v => decide (v < n + 1)) (l := xs)
    have hl2 := List.countP_le_length (p := fun v => decide (v < n + 1)) (l := ys)
    have hfl2 : (FlatAdjacencyList.mk flat (getSplits [xs, ys] N)).flat = flat := rfl
    rw [hfl2]
    omega
  rw [group_length _ n h1 h2, hgd n (by omega), hgd (n + 1) (by omega)]

theorem dirByType_sum {arr ot : List Nat} {N n : Nat}
    (hb : ∀ x ∈ arr, x < N) (hlo : ot.length = arr.length) (hn : n < N) :
    ((npUnique ot).map (fun t =>
        ((FlatAdjacencyList.mk
            ((argsort arr).filter (fun p => decide (ot.getD p 0 = t)))
            (getSplits [(arr.zip ot).filterMap
              (fun p => if p.2 = t then some p.1 else none)] N)).group n).length)).sum =
      arr.countP (fun x => x < n + 1) - arr.countP (fun x => x < n) := by
  have hcov : ∀ p ∈ arr.zip ot, p.2 ∈ npUnique ot :=
    fun p hp => npUnique_mem.mpr (List.of_mem_zip hp).2
  have hcong : ∀ t ∈ npUnique ot,
      ((FlatAdjacencyList.mk
          ((argsort arr).filter (fun p => decide (ot.getD p 0 = t)))
          (getSplits [(arr.zip ot).filterMap
            (fun p => if p.2 = t then some p.1 else none)] N)).group n).length =
        (arr.zip ot).countP (fun p => decide (p.1 < n + 1) && decide (p.2 = t)) -
        (arr.zip ot).countP (fun p => decide (p.1 < n) && decide (p.2 = t)) := by
    intro t _
    have hxb : ∀ v ∈ (arr.zip ot).filterMap
        (fun p => if p.2 = t then some p.1 else none), v < N := by
      intro v hv
      rcases List.mem_filterMap.mp hv with ⟨p, hp, hpv⟩
      by_cases hc : p.2 = t
      · rw [if_pos hc] at hpv
        have hmem := (List.of_mem_zip hp).1
        have hveq : v = p.1 := (Option.some.inj hpv).symm
        rw [hveq]
        exact hb p.1 hmem
      · rw [if_neg hc] at hpv
        exact absurd hpv (by simp)
    have hflen : ((arr.zip ot).filterMap
        (fun p => if p.2 = t then some p.1 else none)).length ≤
        ((argsort arr).filter (fun p => decide (ot.getD p 0 = t))).length := by
      rw [filterMap_snd_eq, List.length_map, ← List.countP_eq_length_filter,
        ← List.countP_eq_length_filter, (argsort_perm arr).countP_eq,
        countP_zip_snd (fun v => decide (v = t)) arr ot (by omega), ← hlo,
        countP_range_getD ot (fun v => decide (v = t))]
    have hgl := @splits_one_group_length
      ((argsort arr).filter (fun p => decide (ot.getD p 0 = t))) _ _ _
      hxb hn hflen
    rw [hgl]
    have hcnt : ∀ k : Nat, ((arr.zip ot).filterMap
        (fun p => if p.2 = t then some p.1 else none)).countP
          (fun v => decide (v < k)) =
        (arr.zip ot).countP (fun p => decide (p.1 < k) && decide (p.2 = t)) := by
      intro k
      rw [filterMap_snd_eq, List.countP_map, List.countP_filter]
      apply List.countP_congr
      intro p _
      simp [Function.comp]
    rw [hcnt (n + 1), hcnt n]
  rw [List.map_congr_left hcong,
    sum_map_sub_of_le
      (fun t => (arr.zip ot).countP
        (fun p => decide (p.1 < n + 1) && decide (p.2 = t)))
      (fun t => (arr.zip ot).countP
        (fun p => decide (p.1 < n) && decide (p.2 = t)))
      (npUnique ot) (by
        intro t _
        apply List.countP_mono_left
        intro p hp
        simp only [Bool.and_eq_true, decide_eq_true_eq]
        intro hpair
        exact ⟨by omega, hpair.2⟩),
    countP_partition (npUnique ot) (npUnique_nodup ot)
      (fun p => decide (p.1 < n + 1)) (arr.zip ot) hcov,
    countP_partition (npUnique ot) (npUnique_nodup ot)
      (fun p => decide (p.1 < n)) (arr.zip ot) hcov,
    countP_zip_fst (fun v => decide (v < n + 1)) arr ot (by omega),
    countP_zip_fst (fun v => decide (v < n)) arr ot (by omega)]

theorem comb_drop_eq {ed : EdgeData}
    (hlen : ed.sources.length = ed.targets.length) :
    ed.combinedArr.drop ed.targets.length = ed.maskedTargets := by
  rw [combinedArr_eq, ← hlen, List.drop_left]

theorem comb_getD_masked {ed : EdgeData}
    (hlen : ed.sources.length = ed.targets.length) (i : Nat) :
    ed.combinedArr.getD (ed.targets.length + i) 0 =
      ed.maskedTargets.getD i 0 := by
  rw [combinedArr_eq, List.getD_append_right _ _ _ _ (by omega)]
  have hsub : ed.targets.length + i - ed.sources.length = i := by omega
  rw [hsub]

theorem targetTypes_length (ed : EdgeData) :
    ed.targetTypes.length = ed.targets.length := by
  unfold EdgeData.targetTypes
  rw [List.length_map]

theorem sourceTypes_length (ed : EdgeData) :
    ed.sourceTypes.length = ed.sources.length := by
  unfold EdgeData.sourceTypes
  rw [List.length_map]

theorem sortOrder_take_eq {ed : EdgeData} (h : ed.WF) :
    (argsort ed.maskedTargets).take
        (ed.maskedTargets.length - ed.numSelfLoops) =
      (argsort ed.maskedTargets).filter
        (fun i => decide (ed.maskedTargets.getD i 0 <
          sentinelOf ed.numberOfNodes)) := by
  have hwf := h
  obtain ⟨hlen, hsrc, htgt, hnt, hN⟩ := h
  have hcount : (argsort ed.maskedTargets).countP
      (fun i => ed.maskedTargets.getD i 0 = sentinelOf ed.numberOfNodes) =
      ed.numSelfLoops := by
    rw [(argsort_perm ed.maskedTargets).countP_eq,
      countP_range_getD ed.maskedTargets
        (fun x => decide (x = sentinelOf ed.numberOfNodes))]
    exact maskedTargets_countP_sent hwf
  have hlen2 : ed.maskedTargets.length = (argsort ed.maskedTargets).length :=
    (argsort_length ed.maskedTargets).symm
  rw [hlen2, ← hcount]
  apply take_sorted_eq_filter _ _ _ (argsort_pairwise ed.maskedTargets)
  intro i hi
  have hi2 : i < ed.maskedTargets.length :=
    List.mem_range.mp ((argsort_perm ed.maskedTargets).mem_iff.mp hi)
  apply maskedTargets_values hwf
  rw [List.getD_eq_getElem _ _ hi2]
  exact List.getElem_mem hi2

theorem filteredSourceTypes_eq {ed : EdgeData} (h : ed.WF) :
    ed.filteredSourceTypes =
      ((argsort ed.maskedTargets).filter
        (fun i => decide (ed.maskedTargets.getD i 0 <
          sentinelOf ed.numberOfNodes))).map
        (fun i => ed.sourceTypes.getD i 0) := by
  have hwf := h
  obtain ⟨hlen, hsrc, htgt, hnt, hN⟩ := h
  unfold EdgeData.filteredSourceTypes EdgeData.filteredTargetsSortOrder
  rw [comb_drop_eq hlen, List.length_map, argsort_length,
    ← List.map_take, sortOrder_take_eq hwf]

theorem filteredTargetsByType_eq {ed : EdgeData} (h : ed.WF) :
    ed.filteredTargetsByType =
      ((argsort ed.maskedTargets).filter
        (fun i => decide (ed.maskedTargets.getD i 0 <
          sentinelOf ed.numberOfNodes))).map
        (fun i => ed.maskedTargets.getD i 0) := by
  have hwf := h
  obtain ⟨hlen, hsrc, htgt, hnt, hN⟩ := h
  unfold EdgeData.filteredTargetsByType EdgeData.filteredTargetsSortOrder
  rw [comb_drop_eq hlen, List.length_map, argsort_length,
    ← List.map_take, sortOrder_take_eq hwf]

theorem mem_bothOtherTypes_src {ed : EdgeData} (h : ed.WF) {j : Nat}
    (hj : j < ed.targets.length) :
    ed.targetTypes.getD j 0 ∈ npUnique ed.bothOtherTypes := by
  have hwf := h
  obtain ⟨hlen, hsrc, htgt, hnt, hN⟩ := h
  have hsen := le_sentinelOf hN
  apply npUnique_mem.mpr
  have hjs : j < ed.sources.length := by omega
  have hkey : ed.combinedArr.getD j 0 < sentinelOf ed.numberOfNodes := by
    rw [comb_getD_left hlen hj]
    have hmem : ed.sources.getD j 0 ∈ ed.sources := by
      rw [List.getD_eq_getElem _ _ hjs]
      exact List.getElem_mem hjs
    have := hsrc _ hmem
    omega
  have hjTF : j ∈ ed.trimmedFlat := by
    apply (trimmedFlat_perm hwf).mem_iff.mpr
    apply List.mem_filter.mpr
    exact ⟨List.mem_range.mpr (by omega), decide_eq_true hkey⟩
  apply List.mem_map.mpr
  refine ⟨j, hjTF, ?_⟩
  have htl : j < ed.targetTypes.length := by
    rw [targetTypes_length]
    exact hj
  exact List.getD_append _ _ _ _ htl

theorem mem_bothOtherTypes_tgt {ed : EdgeData} (h : ed.WF) {i : Nat}
    (hi : i < ed.targets.length)
    (hns : ed.maskedTargets.getD i 0 < sentinelOf ed.numberOfNodes) :
    ed.sourceTypes.getD i 0 ∈ npUnique ed.bothOtherTypes := by
  have hwf := h
  obtain ⟨hlen, hsrc, htgt, hnt, hN⟩ := h
  apply npUnique_mem.mpr
  have hkey : ed.combinedArr.getD (ed.targets.length + i) 0 <
      sentinelOf ed.numberOfNodes := by
    rw [comb_getD_masked hlen]
    exact hns
  have hiTF : ed.targets.length + i ∈ ed.trimmedFlat := by
    apply (trimmedFlat_perm hwf).mem_iff.mpr
    apply List.mem_filter.mpr
    exact ⟨List.mem_range.mpr (by omega), decide_eq_true hkey⟩
  apply List.mem_map.mpr
  refine ⟨ed.targets.length + i, hiTF, ?_⟩
  have htl : ed.targetTypes.length ≤ ed.targets.length + i := by
    rw [targetTypes_length]
    omega
  rw [List.getD_append_right _ _ _ _ htl, targetTypes_length]
  have hsub : ed.targets.length + i - ed.targets.length = i := by omega
  rw [hsub]

theorem sources_getD_lt {ed : EdgeData} (h : ed.WF) {e : Nat}
    (he : e < ed.sources.length) :
    ed.sources.getD e 0 < ed.numberOfNodes := by
  obtain ⟨hlen, hsrc, _, _, _⟩ := h
  apply hsrc
  rw [List.getD_eq_getElem _ _ he]
  exact List.getElem_mem he

theorem filteredTargetsByType_values {ed : EdgeData} (h : ed.WF) :
    ∀ x ∈ ed.filteredTargetsByType, x < ed.numberOfNodes := by
  have hwf := h
  rw [filteredTargetsByType_eq hwf]
  intro x hx
  rcases List.mem_map.mp hx with ⟨i, hiF, hix⟩
  rcases List.mem_filter.mp hiF with ⟨hiA, hilt⟩
  have hiE : i < ed.maskedTargets.length :=
    List.mem_range.mp ((argsort_perm ed.maskedTargets).mem_iff.mp hiA)
  have hmem : ed.maskedTargets.getD i 0 ∈
      ed.maskedTargets.filter
        (fun v => decide (v < sentinelOf ed.numberOfNodes)) := by
    apply List.mem_filter.mpr
    constructor
    · rw [List.getD_eq_getElem _ _ hiE]
      exact List.getElem_mem hiE
    · exact hilt
  rw [maskedTargets_filter hwf] at hmem
  rw [← hix]
  exact nonLoopTargets_values hwf _ hmem

theorem filteredTargetsByType_countP {ed : EdgeData} (h : ed.WF) (k : Nat) :
    ed.filteredTargetsByType.countP (fun x => x < k) =
      ed.nonLoopTargets.countP (fun x => x < k) := by
  have hwf := h
  rw [filteredTargetsByType_eq hwf, List.countP_map, List.countP_filter]
  trans (argsort ed.maskedTargets).countP
      (fun i => decide (ed.maskedTargets.getD i 0 < k) &&
        decide (ed.maskedTargets.getD i 0 < sentinelOf ed.numberOfNodes))
  · apply List.countP_congr
    intro i _
    simp [Function.comp]
  rw [(argsort_perm ed.maskedTargets).countP_eq,
    countP_range_getD ed.maskedTargets
      (fun x => decide (x < k) && decide (x < sentinelOf ed.numberOfNodes)),
    ← maskedTargets_filter hwf, List.countP_filter]

theorem bothOtherTypes_countP_eq {ed : EdgeData} (h : ed.WF) (t : Nat) :
    ed.bothOtherTypes.countP (fun v => v = t) =
      ed.targetTypes.countP (fun v => v = t) +
        ed.filteredSourceTypes.countP (fun v => v = t) := by
  have hwf := h
  obtain ⟨hlen, hsrc, htgt, hnt, hN⟩ := h
  have hsen := le_sentinelOf hN
  have hmlen : ed.maskedTargets.length = ed.targets.length :=
    maskedTargets_length hlen
  have httl := targetTypes_length ed
  unfold EdgeData.bothOtherTypes
  rw [List.countP_map]
  trans (ed.trimmedFlat.countP
      (fun p => decide ((ed.targetTypes ++ ed.sourceTypes).getD p 0 = t)))
  · apply List.countP_congr
    intro p _
    simp [Function.comp]
  rw [(trimmedFlat_perm hwf).countP_eq, List.countP_filter,
    countP_range_double]
  congr 1
  · trans ((List.range ed.targets.length).countP
        (fun e => decide (ed.targetTypes.getD e 0 = t)))
    · apply List.countP_congr
      intro e he
      have heE : e < ed.targets.length := List.mem_range.mp he
      have hkey : ed.combinedArr.getD e 0 < sentinelOf ed.numberOfNodes := by
        rw [comb_getD_left hlen heE]
        have := sources_getD_lt hwf (e := e) (by omega)
        omega
      rw [decide_eq_true hkey, Bool.and_true,
        List.getD_append _ _ _ _ (by omega)]
    · rw [← httl, countP_range_getD ed.targetTypes (fun v => decide (v = t))]
  · trans ((List.range ed.targets.length).countP
        (fun e => decide (ed.sourceTypes.getD e 0 = t) &&
          decide (ed.maskedTargets.getD e 0 < sentinelOf ed.numberOfNodes)))
    · apply List.countP_congr
      intro e he
      have heE : e < ed.targets.length := List.mem_range.mp he
      rw [comb_getD_masked hlen,
        List.getD_append_right _ _ _ _ (by omega)]
      have hsub : ed.targets.length + e - ed.targetTypes.length = e := by omega
      rw [hsub]
    · rw [filteredSourceTypes_eq hwf, List.countP_map]
      trans ((argsort ed.maskedTargets).countP
          (fun i => decide (ed.sourceTypes.getD i 0 = t) &&
            decide (ed.maskedTargets.getD i 0 < sentinelOf ed.numberOfNodes)))
      · rw [(argsort_perm ed.maskedTargets).countP_eq, hmlen]
      · rw [List.countP_filter]
        apply List.countP_congr
        intro i _
        simp [Function.comp]

theorem bothByType_sum {ed : EdgeData} (h : ed.WF) {n : Nat}
    (hn : n < ed.numberOfNodes) :
    ((npUnique ed.bothOtherTypes).map (fun t =>
        ((FlatAdjacencyList.mk
            (((ed.trimmedFlat.map (fun p => p % ed.targets.length)).zip
                ed.bothOtherTypes).filterMap
              (fun p => if p.2 = t then some p.1 else none))
            (getSplits
              [(ed.sources.zip ed.targetTypes).filterMap
                (fun p => if p.2 = t then some p.1 else none),
               (ed.filteredTargetsByType.zip ed.filteredSourceTypes).filterMap
                (fun p => if p.2 = t then some p.1 else none)]
              ed.numberOfNodes)).group n).length)).sum =
      (ed.bothAdj.group n).length := by
  have hwf := h
  obtain ⟨hlen, hsrc, htgt, hnt, hN⟩ := h
  have httl := targetTypes_length ed
  have hftv := filteredTargetsByType_values hwf
  have hlen2 : ed.filteredTargetsByType.length =
      ed.filteredSourceTypes.length := by
    rw [filteredTargetsByType_eq hwf, filteredSourceTypes_eq hwf,
      List.length_map, List.length_map]
  have hzl : (ed.trimmedFlat.map (fun p => p % ed.targets.length)).length =
      ed.bothOtherTypes.length := by
    unfold EdgeData.bothOtherTypes
    rw [List.length_map, List.length_map]
  have hcov1 : ∀ p ∈ ed.sources.zip ed.targetTypes,
      p.2 ∈ npUnique ed.bothOtherTypes := by
    intro p hp
    have hmem := (List.of_mem_zip hp).2
    rcases List.mem_iff_getElem.mp hmem with ⟨j, hj, hjp⟩
    have hje : j < ed.targets.length := by
      rw [← httl]
      exact hj
    have hmm := mem_bothOtherTypes_src hwf hje
    rw [List.getD_eq_getElem _ _ hj] at hmm
    rw [← hjp]
    exact hmm
  have hcov2 : ∀ p ∈ ed.filteredTargetsByType.zip ed.filteredSourceTypes,
      p.2 ∈ npUnique ed.bothOtherTypes := by
    intro p hp
    have hmem := (List.of_mem_zip hp).2
    rw [filteredSourceTypes_eq hwf] at hmem
    rcases List.mem_map.mp hmem with ⟨i, hiF, hip⟩
    rcases List.mem_filter.mp hiF with ⟨hiA, hilt⟩
    have hiE : i < ed.targets.length := by
      have hr := List.mem_range.mp
        ((argsort_perm ed.maskedTargets).mem_iff.mp hiA)
      rw [maskedTargets_length hlen] at hr
      exact hr
    have hmm := mem_bothOtherTypes_tgt hwf hiE (of_decide_eq_true hilt)
    rw [← hip]
    exact hmm
  have hcong : ∀ t ∈ npUnique ed.bothOtherTypes,
      ((FlatAdjacencyList.mk
          (((ed.trimmedFlat.map (fun p => p % ed.targets.length)).zip
              ed.bothOtherTypes).filterMap
            (fun p => if p.2 = t then some p.1 else none))
          (getSplits
            [(ed.sources.zip ed.targetTypes).filterMap
              (fun p => if p.2 = t then some p.1 else none),
             (ed.filteredTargetsByType.zip ed.filteredSourceTypes).filterMap
              (fun p => if p.2 = t then some p.1 else none)]
            ed.numberOfNodes)).group n).length =
        ((ed.sources.zip ed.targetTypes).countP
            (fun p => decide (p.1 < n + 1) && decide (p.2 = t)) +
          (ed.filteredTargetsByType.zip ed.filteredSourceTypes).countP
            (fun p => decide (p.1 < n + 1) && decide (p.2 = t))) -
        ((ed.sources.zip ed.targetTypes).countP
            (fun p => decide (p.1 < n) && decide (p.2 = t)) +
          (ed.filteredTargetsByType.zip ed.filteredSourceTypes).countP
            (fun p => decide (p.1 < n) && decide (p.2 = t))) := by
    intro t _
    have hxb : ∀ v ∈ (ed.sources.zip ed.targetTypes).filterMap
        (fun p => if p.2 = t then some p.1 else none),
        v < ed.numberOfNodes := by
      intro v hv
      rcases List.mem_filterMap.mp hv with ⟨p, hp, hpv⟩
      by_cases hc : p.2 = t
      · rw [if_pos hc] at hpv
        have hmem := (List.of_mem_zip hp).1
        have hveq : v = p.1 := (Option.some.inj hpv).symm
        rw [hveq]
        exact hsrc p.1 hmem
      · rw [if_neg hc] at hpv
        exact absurd hpv (by simp)
    have hyb : ∀ v ∈ (ed.filteredTargetsByType.zip
        ed.filteredSourceTypes).filterMap
        (fun p => if p.2 = t then some p.1 else none),
        v < ed.numberOfNodes := by
      intro v hv
      rcases List.mem_filterMap.mp hv with ⟨p, hp, hpv⟩
      by_cases hc : p.2 = t
      · rw [if_pos hc] at hpv
        have hmem := (List.of_mem_zip hp).1
        have hveq : v = p.1 := (Option.some.inj hpv).symm
        rw [hveq]
        exact hftv p.1 hmem
      · rw [if_neg hc] at hpv
        exact absurd hpv (by simp)
    have e1 : ((ed.sources.zip ed.targetTypes).filterMap
        (fun p => if p.2 = t then some p.1 else none)).length =
        ed.targetTypes.countP (fun v => v = t) := by
      rw [filterMap_snd_eq, List.length_map, ← List.countP_eq_length_filter,
        countP_zip_snd (fun v => decide (v = t)) _ _ (by omega)]
    have e2 : ((ed.filteredTargetsByType.zip
        ed.filteredSourceTypes).filterMap
        (fun p => if p.2 = t then some p.1 else none)).length =
        ed.filteredSourceTypes.countP (fun v => v = t) := by
      rw [filterMap_snd_eq, List.length_map, ← List.countP_eq_length_filter,
        countP_zip_snd (fun v => decide (v = t)) _ _ hlen2]
    have e3 : (((ed.trimmedFlat.map (fun p => p % ed.targets.length)).zip
        ed.bothOtherTypes).filterMap
        (fun p => if p.2 = t then some p.1 else none)).length =
        ed.bothOtherTypes.countP (fun v => v = t) := by
      rw [filterMap_snd_eq, List.length_map, ← List.countP_eq_length_filter,
        countP_zip_snd (fun v => decide (v = t)) _ _ hzl]
    have hfl : ((ed.sources.zip ed.targetTypes).filterMap
        (fun p => if p.2 = t then some p.1 else none)).length +
        ((ed.filteredTargetsByType.zip ed.filteredSourceTypes).filterMap
          (fun p => if p.2 = t then some p.1 else none)).length ≤
        (((ed.trimmedFlat.map (fun p => p % ed.targets.length)).zip
            ed.bothOtherTypes).filterMap
          (fun p => if p.2 = t then some p.1 else none)).length := by
      rw [e1, e2, e3, bothOtherTypes_countP_eq hwf t]
    have hgl := splits_two_group_length hxb hyb hn hfl
    rw [hgl]
    have hcnt1 : ∀ k : Nat, ((ed.sources.zip ed.targetTypes).filterMap
        (fun p => if p.2 = t then some p.1 else none)).countP
          (fun v => decide (v < k)) =
        (ed.sources.zip ed.targetTypes).countP
          (fun p => decide (p.1 < k) && decide (p.2 = t)) := by
      intro k
      rw [filterMap_snd_eq, List.countP_map, List.countP_filter]
      apply List.countP_congr
      intro p _
      simp [Function.comp]
    have hcnt2 : ∀ k : Nat, ((ed.filteredTargetsByType.zip
        ed.filteredSourceTypes).filterMap
        (fun p => if p.2 = t then some p.1 else none)).countP
          (fun v => decide (v < k)) =
        (ed.filteredTargetsByType.zip ed.filteredSourceTypes).countP
          (fun p => decide (p.1 < k) && decide (p.2 = t)) := by
      intro k
      rw [filterMap_snd_eq, List.countP_map, List.countP_filter]
      apply List.countP_congr
      intro p _
      simp [Function.comp]
    rw [hcnt1 (n + 1), hcnt1 n, hcnt2 (n + 1), hcnt2 n]
  rw [List.map_congr_left hcong,
    sum_map_sub_of_le
      (fun t => (ed.sources.zip ed.targetTypes).countP
          (fun p => decide (p.1 < n + 1) && decide (p.2 = t)) +
        (ed.filteredTargetsByType.zip ed.filteredSourceTypes).countP
          (fun p => decide (p.1 < n + 1) && decide (p.2 = t)))
      (fun t => (ed.sources.zip ed.targetTypes).countP
          (fun p => decide (p.1 < n) && decide (p.2 = t)) +
        (ed.filteredTargetsByType.zip ed.filteredSourceTypes).countP
          (fun p => decide (p.1 < n) && decide (p.2 = t)))
      (npUnique ed.bothOtherTypes) (by
        intro t _
        have h1 := List.countP_mono_left
          (l := ed.sources.zip ed.targetTypes)
          (p := fun p => decide (p.1 < n) && decide (p.2 = t))
          (q := fun p => decide (p.1 < n + 1) && decide (p.2 = t)) (by
            intro p _
            simp only [Bool.and_eq_true, decide_eq_true_eq]
            intro hpair
            exact ⟨by omega, hpair.2⟩)
        have h2 := List.countP_mono_left
          (l := ed.filteredTargetsByType.zip ed.filteredSourceTypes)
          (p := fun p => decide (p.1 < n) && decide (p.2 = t))
          (q := fun p => decide (p.1 < n + 1) && decide (p.2 = t)) (by
            intro p _
            simp only [Bool.and_eq_true, decide_eq_true_eq]
            intro hpair
            exact ⟨by omega, hpair.2⟩)
        simp only
        omega),
    sum_map_add, sum_map_add,
    countP_partition (npUnique ed.bothOtherTypes)
      (npUnique_nodup ed.bothOtherTypes)
      (fun p => decide (p.1 < n + 1)) (ed.sources.zip ed.targetTypes) hcov1,
    countP_partition (npUnique ed.bothOtherTypes)
      (npUnique_nodup ed.bothOtherTypes)
      (fun p => decide (p.1 < n + 1))
      (ed.filteredTargetsByType.zip ed.filteredSourceTypes) hcov2,
    countP_partition (npUnique ed.bothOtherTypes)
      (npUnique_nodup ed.bothOtherTypes)
      (fun p => decide (p.1 < n)) (ed.sources.zip ed.targetTypes) hcov1,
    countP_partition (npUnique ed.bothOtherTypes)
      (npUnique_nodup ed.bothOtherTypes)
      (fun p => decide (p.1 < n))
      (ed.filteredTargetsByType.zip ed.filteredSourceTypes) hcov2,
    countP_zip_fst (fun v => decide (v < n + 1)) _ _ (by omega),
    countP_zip_fst (fun v => decide (v < n + 1)) _ _ hlen2,
    countP_zip_fst (fun v => decide (v < n)) _ _ (by omega),
    countP_zip_fst (fun v => decide (v < n)) _ _ hlen2,
    filteredTargetsByType_countP hwf (n + 1), filteredTargetsByType_countP hwf n,
    bothAdj_group_length hwf hn]

/-- C3: for every well-formed edge collection, in-range node iloc n and
direction (out, in, both), the lengths of the edge iloc lists returned by
edge_ilocs filtered to each other-endpoint type occurring in the collection
sum to the degree of n in that direction: the by-type views partition each
adjacency group. -/
theorem edgeIlocs_partition {ed : EdgeData} (h : ed.WF) {n : Nat}
    (hn : n < ed.numberOfNodes) :
    ((npUnique ed.targetTypes).map (fun t =>
        ((ed.edgeIlocs (↑n) false true (some t)).toOption.getD []).length)).sum =
      ed.degree n false true ∧
    ((npUnique ed.sourceTypes).map (fun t =>
        ((ed.edgeIlocs (↑n) true false (some t)).toOption.getD []).length)).sum =
      ed.degree n true false ∧
    ((npUnique ed.bothOtherTypes).map (fun t =>
        ((ed.edgeIlocs (↑n) true true (some t)).toOption.getD []).length)).sum =
      ed.degree n true true := by
  have hwf := h
  obtain ⟨hlen, hsrc, htgt, hnt, hN⟩ := h
  have httl := targetTypes_length ed
  have hstl := sourceTypes_length ed
  have hftv := filteredTargetsByType_values hwf
  have hdeg : ∀ (i o : Bool) (adj : FlatAdjacencyList),
      ed.adjLookup i o = .ok adj →
      adj.splits.length = ed.numberOfNodes + 1 →
      ed.degree n i o = (adj.group n).length := by
    intro i o adj hadj hsl
    unfold EdgeData.degree
    rw [EdgeData.degrees, hadj]
    simp only [Except.toOption, Option.getD_some]
    rw [hsl]
    simp only [Nat.add_sub_cancel]
    rw [List.getD_eq_getElem _ _ (by
      rw [List.length_map, List.length_range]
      omega), List.getElem_map, List.getElem_range]
  refine ⟨?_, ?_, ?_⟩
  · have hterm : ∀ t ∈ npUnique ed.targetTypes,
        ((ed.edgeIlocs (↑n) false true (some t)).toOption.getD []).length =
        ((FlatAdjacencyList.mk
            ((argsort ed.sources).filter
              (fun p => decide (ed.targetTypes.getD p 0 = t)))
            (getSplits [(ed.sources.zip ed.targetTypes).filterMap
              (fun p => if p.2 = t then some p.1 else none)]
              ed.numberOfNodes)).group n).length := by
      intro t ht
      have hlk : ed.outAdjByType.lookup t = some (FlatAdjacencyList.mk
          ((argsort ed.sources).filter
            (fun p => decide (ed.targetTypes.getD p 0 = t)))
          (getSplits [(ed.sources.zip ed.targetTypes).filterMap
            (fun p => if p.2 = t then some p.1 else none)]
            ed.numberOfNodes)) :=
        lookup_map_graph _ (npUnique ed.targetTypes)
          (npUnique_nodup ed.targetTypes) ht
      have hxb : ∀ v ∈ (ed.sources.zip ed.targetTypes).filterMap
          (fun p => if p.2 = t then some p.1 else none),
          v < ed.numberOfNodes := by
        intro v hv
        rcases List.mem_filterMap.mp hv with ⟨p, hp, hpv⟩
        by_cases hc : p.2 = t
        · rw [if_pos hc] at hpv
          have hmem := (List.of_mem_zip hp).1
          have hveq : v = p.1 := (Option.some.inj hpv).symm
          rw [hveq]
          exact hsrc p.1 hmem
        · rw [if_neg hc] at hpv
          exact absurd hpv (by simp)
      have hget := get_eq_group (FlatAdjacencyList.mk
          ((argsort ed.sources).filter
            (fun p => decide (ed.targetTypes.getD p 0 = t)))
          (getSplits [(ed.sources.zip ed.targetTypes).filterMap
            (fun p => if p.2 = t then some p.1 else none)]
            ed.numberOfNodes)) n (by
        show n + 1 < (getSplits [(ed.sources.zip ed.targetTypes).filterMap
          (fun p => if p.2 = t then some p.1 else none)]
          ed.numberOfNodes).length
        rw [getSplits_one_length hxb]
        omega)
      have hout2 : ed.adjLookupByType false true =
          Except.ok ed.outAdjByType := rfl
      simp only [EdgeData.edgeIlocs, hout2, hlk, hget, Except.toOption,
        Option.getD_some]
    rw [List.map_congr_left hterm, dirByType_sum hsrc (by omega) hn,
      hdeg false true ed.outAdj rfl (getSplits_one_length hsrc)]
    show _ = ((FlatAdjacencyList.mk (argsort ed.sources)
      (getSplits [ed.sources] ed.numberOfNodes)).group n).length
    rw [splits_one_group_length hsrc hn
      (le_of_eq (argsort_length ed.sources).symm)]
  · have hterm : ∀ t ∈ npUnique ed.sourceTypes,
        ((ed.edgeIlocs (↑n) true false (some t)).toOption.getD []).length =
        ((FlatAdjacencyList.mk
            ((argsort ed.targets).filter
              (fun p => decide (ed.sourceTypes.getD p 0 = t)))
            (getSplits [(ed.targets.zip ed.sourceTypes).filterMap
              (fun p => if p.2 = t then some p.1 else none)]
              ed.numberOfNodes)).group n).length := by
      intro t ht
      have hlk : ed.inAdjByType.lookup t = some (FlatAdjacencyList.mk
          ((argsort ed.targets).filter
            (fun p => decide (ed.sourceTypes.getD p 0 = t)))
          (getSplits [(ed.targets.zip ed.sourceTypes).filterMap
            (fun p => if p.2 = t then some p.1 else none)]
            ed.numberOfNodes)) :=
        lookup_map_graph _ (npUnique ed.sourceTypes)
          (npUnique_nodup ed.sourceTypes) ht
      have hxb : ∀ v ∈ (ed.targets.zip ed.sourceTypes).filterMap
          (fun p => if p.2 = t then some p.1 else none),
          v < ed.numberOfNodes := by
        intro v hv
        rcases List.mem_filterMap.mp hv with ⟨p, hp, hpv⟩
        by_cases hc : p.2 = t
        · rw [if_pos hc] at hpv
          have hmem := (List.of_mem_zip hp).1
          have hveq : v = p.1 := (Option.some.inj hpv).symm
          rw [hveq]
          exact htgt p.1 hmem
        · rw [if_neg hc] at hpv
          exact absurd hpv (by simp)
      have hget := get_eq_group (FlatAdjacencyList.mk
          ((argsort ed.targets).filter
            (fun p => decide (ed.sourceTypes.getD p 0 = t)))
          (getSplits [(ed.targets.zip ed.sourceTypes).filterMap
            (fun p => if p.2 = t then some p.1 else none)]
            ed.numberOfNodes)) n (by
        show n + 1 < (getSplits [(ed.targets.zip ed.sourceTypes).filterMap
          (fun p => if p.2 = t then some p.1 else none)]
          ed.numberOfNodes).length
        rw [getSplits_one_length hxb]
        omega)
      have hin2 : ed.adjLookupByType true false =
          Except.ok ed.inAdjByType := rfl
      simp only [EdgeData.edgeIlocs, hin2, hlk, hget, Except.toOption,
        Option.getD_some]
    rw [List.map_congr_left hterm, dirByType_sum htgt (by omega) hn,
      hdeg true false ed.inAdj rfl (getSplits_one_length htgt)]
    show _ = ((FlatAdjacencyList.mk (argsort ed.targets)
      (getSplits [ed.targets] ed.numberOfNodes)).group n).length
    rw [splits_one_group_length htgt hn
      (le_of_eq (argsort_length ed.targets).symm)]
  · have hterm : ∀ t ∈ npUnique ed.bothOtherTypes,
        ((ed.edgeIlocs (↑n) true true (some t)).toOption.getD []).length =
        ((FlatAdjacencyList.mk
            (((ed.trimmedFlat.map (fun p => p % ed.targets.length)).zip
                ed.bothOtherTypes).filterMap
              (fun p => if p.2 = t then some p.1 else none))
            (getSplits
              [(ed.sources.zip ed.targetTypes).filterMap
                (fun p => if p.2 = t then some p.1 else none),
               (ed.filteredTargetsByType.zip ed.filteredSourceTypes).filterMap
                (fun p => if p.2 = t then some p.1 else none)]
              ed.numberOfNodes)).group n).length := by
      intro t ht
      have hlk : ed.bothAdjByType.lookup t = some (FlatAdjacencyList.mk
          (((ed.trimmedFlat.map (fun p => p % ed.targets.length)).zip
              ed.bothOtherTypes).filterMap
            (fun p => if p.2 = t then some p.1 else none))
          (getSplits
            [(ed.sources.zip ed.targetTypes).filterMap
              (fun p => if p.2 = t then some p.1 else none),
             (ed.filteredTargetsByType.zip ed.filteredSourceTypes).filterMap
              (fun p => if p.2 = t then some p.1 else none)]
            ed.numberOfNodes)) :=
        lookup_map_graph _ (npUnique ed.bothOtherTypes)
          (npUnique_nodup ed.bothOtherTypes) ht
      have hxb : ∀ v ∈ (ed.sources.zip ed.targetTypes).filterMap
          (fun p => if p.2 = t then some p.1 else none),
          v < ed.numberOfNodes := by
        intro v hv
        rcases List.mem_filterMap.mp hv with ⟨p, hp, hpv⟩
        by_cases hc : p.2 = t
        · rw [if_pos hc] at hpv
          have hmem := (List.of_mem_zip hp).1
          have hveq : v = p.1 := (Option.some.inj hpv).symm
          rw [hveq]
          exact hsrc p.1 hmem
        · rw [if_neg hc] at hpv
          exact absurd hpv (by simp)
      have hyb : ∀ v ∈ (ed.filteredTargetsByType.zip
          ed.filteredSourceTypes).filterMap
          (fun p => if p.2 = t then some p.1 else none),
          v < ed.numberOfNodes := by
        intro v hv
        rcases List.mem_filterMap.mp hv with ⟨p, hp, hpv⟩
        by_cases hc : p.2 = t
        · rw [if_pos hc] at hpv
          have hmem := (List.of_mem_zip hp).1
          have hveq : v = p.1 := (Option.some.inj hpv).symm
          rw [hveq]
          exact hftv p.1 hmem
        · rw [if_neg hc] at hpv
          exact absurd hpv (by simp)
      have hget := get_eq_group (FlatAdjacencyList.mk
          (((ed.trimmedFlat.map (fun p => p % ed.targets.length)).zip
              ed.bothOtherTypes).filterMap
            (fun p => if p.2 = t then some p.1 else none))
          (getSplits
            [(ed.sources.zip ed.targetTypes).filterMap
              (fun p => if p.2 = t then some p.1 else none),
             (ed.filteredTargetsByType.zip ed.filteredSourceTypes).filterMap
              (fun p => if p.2 = t then some p.1 else none)]
            ed.numberOfNodes)) n (by
        show n + 1 < (getSplits
          [(ed.sources.zip ed.targetTypes).filterMap
            (fun p => if p.2 = t then some p.1 else none),
           (ed.filteredTargetsByType.zip ed.filteredSourceTypes).filterMap
            (fun p => if p.2 = t then some p.1 else none)]
          ed.numberOfNodes).length
        rw [getSplits_two_length hxb hyb]
        omega)
      have hboth2 : ed.adjLookupByType true true =
          Except.ok ed.bothAdjByType := rfl
      simp only [EdgeData.edgeIlocs, hboth2, hlk, hget, Except.toOption,
        Option.getD_some]
    rw [List.map_congr_left hterm, bothByType_sum hwf hn,
      hdeg true true ed.bothAdj rfl (bothAdj_splits_length hwf)]

theorem edgeIlocs_partition_witness :
    EdgeData.WF ⟨[0, 1, 2], [1, 2, 2], 3, [0, 0, 0]⟩ ∧
    (((npUnique (EdgeData.mk [0, 1, 2] [1, 2, 2] 3 [0, 0, 0]).targetTypes).map
        (fun t => (((EdgeData.mk [0, 1, 2] [1, 2, 2] 3
          [0, 0, 0]).edgeIlocs (↑(2 : Nat)) false true
            (some t)).toOption.getD []).length)).sum =
      (EdgeData.mk [0, 1, 2] [1, 2, 2] 3 [0, 0, 0]).degree 2 false true) ∧
    (((npUnique (EdgeData.mk [0, 1, 2] [1, 2, 2] 3 [0, 0, 0]).sourceTypes).map
        (fun t => (((EdgeData.mk [0, 1, 2] [1, 2, 2] 3
          [0, 0, 0]).edgeIlocs (↑(2 : Nat)) true false
            (some t)).toOption.getD []).length)).sum =
      (EdgeData.mk [0, 1, 2] [1, 2, 2] 3 [0, 0, 0]).degree 2 true false) ∧
    (((npUnique (EdgeData.mk [0, 1, 2] [1, 2, 2] 3
        [0, 0, 0]).bothOtherTypes).map
        (fun t => (((EdgeData.mk [0, 1, 2] [1, 2, 2] 3
          [0, 0, 0]).edgeIlocs (↑(2 : Nat)) true true
            (some t)).toOption.getD []).length)).sum =
      (EdgeData.mk [0, 1, 2] [1, 2, 2] 3 [0, 0, 0]).degree 2 true true) := by
  have hwf : EdgeData.WF ⟨[0, 1, 2], [1, 2, 2], 3, [0, 0, 0]⟩ := by
    refine ⟨rfl, ?_, ?_, rfl, ?_⟩ <;> decide
  have h := edgeIlocs_partition hwf (n := 2) (by decide)
  exact ⟨hwf, h.1, h.2.1, h.2.2⟩
